import Mathlib

/-!
# KadNode: command channel, value layer and port forwardings

A shallow embedding of `src/ext-cmd.c`, `src/utils.c` and `src/forwardings.c`
of KadNode.

Conventions of the embedding.

* A byte is a `Nat` below 256.  A C string is the list of its bytes before the
  terminating NUL; a buffer is the list of all its bytes.
* `int` is `Int` wrapped to 32 bits where the source computes with it,
  `time_t`, `long` and `ssize_t` are 64 bit (`LONG_MAX = 2^63 - 1`).
* Whether plain `char` is signed is fixed by the platform ABI (signed on
  x86 and x86-64, unsigned on ARM Linux); functions that compare `char`
  values take it as the parameter `char_signed`.
* Functions living outside the three source files (the DHT, the resolver,
  `inet_ntop`, the clock, the configuration) are fields of `Env`; the calls
  made to collaborators with an effect are recorded in order as `Call`s.
* The linked list of `forwardings.c` is the list of its nodes in `next` order;
  a node carries its address, and a pointer to a node is that address.  What
  the router back-ends do in one tick is the input `tick_t`; the calls made to
  them are recorded in order as `fwd_call`s.
-/

namespace KadNode

/-! ## Bytes, characters and machine integers -/

/-- Bytes of a string literal. -/
def bytes (s : String) : List Nat := s.toList.map Char.toNat

/-- Value of a plain `char` object holding byte `b`, after promotion to `int`. -/
def char_val (char_signed : Bool) (b : Nat) : Int :=
  if char_signed && decide (128 ≤ b) then (b : Int) - 256 else (b : Int)

/-- Byte stored when an integer is converted to `char` or `uint8_t`. -/
def to_byte (x : Int) : Nat := (x % 256).toNat

/-- Largest `long` and `time_t` value. -/
def LONG_MAX : Int := 2 ^ 63 - 1

/-- Smallest `long` value. -/
def LONG_MIN : Int := -(2 ^ 63)

/-- Two's complement wrap of an integer to a 32 bit `int`. -/
def int_wrap (x : Int) : Int := (x + 2 ^ 31) % 2 ^ 32 - 2 ^ 31

/-- Two's complement wrap of an integer to a 64 bit `long`. -/
def long_wrap (x : Int) : Int := (x + 2 ^ 63) % 2 ^ 64 - 2 ^ 63

/-- Saturation of an integer to the range of `long`, as `strtol` does. -/
def long_sat (x : Int) : Int := max LONG_MIN (min LONG_MAX x)

/-- The C string starting at offset `off` of a buffer. -/
def cstr_at (buf : List Nat) (off : Nat) : List Nat :=
  (buf.drop off).takeWhile (fun b => b != 0)

/-- The libc `strlen` of the C string starting at offset `off` of a buffer. -/
def strlen_at (buf : List Nat) (off : Nat) : Nat := (cstr_at buf off).length

/-- The libc `isspace` in the C locale. -/
def isspace (c : Nat) : Bool := c == 32 || (9 ≤ c && c ≤ 13)

/-- The libc `isdigit`. -/
def isdigit (c : Nat) : Bool := 48 ≤ c && c ≤ 57

/-- The libc `tolower` in the C locale. -/
def tolower (c : Int) : Int := if 65 ≤ c ∧ c ≤ 90 then c + 32 else c

/-- Value of a run of decimal digits. -/
def digits_val (ds : List Nat) : Nat := ds.foldl (fun a d => 10 * a + (d - 48)) 0

/-- Decimal integer at the start of a text, as `strtol( s, &end, 10 )` and the
`%d` directive of `scanf` read it: white space is skipped, a sign is optional,
the longest run of digits is taken.  Returns the value saturated to `long` and
the unread rest, or `none` when no digit is found. -/
def scan_long (s : List Nat) : Option (Int × List Nat) :=
  let t := s.dropWhile isspace
  let neg : Bool := t.head? == some 45
  let u := if t.head? == some 45 || t.head? == some 43 then t.tail else t
  let ds := u.takeWhile isdigit
  if ds.isEmpty then none
  else
    let v : Int := digits_val ds
    some (long_sat (if neg then -v else v), u.dropWhile isdigit)

/-- The libc `atoi`, which is `(int) strtol( s, NULL, 10 )`.  A value outside
`int` has no defined result in ISO C; glibc truncates the saturated `long`. -/
def atoi (s : List Nat) : Int :=
  match scan_long s with
  | some (v, _) => int_wrap v
  | none => 0

/-- Text produced by the `printf` directives `%hu` and `%d` for a natural number. -/
def fmt_u (n : Nat) : List Nat := (Nat.toDigits 10 n).map Char.toNat

/-- Text produced by the `printf` directive `%d`. -/
def fmt_d (x : Int) : List Nat :=
  if x < 0 then 45 :: fmt_u (-x).toNat else fmt_u x.toNat

/-- Result of `sscanf( s, "%255[^:]:%d%4s", hostname, &port, dummy )` as
`(return value, hostname, port)`, where `port` holds `port0` before the call.
The first directive takes up to 255 bytes other than `:` and fails on none;
then a `:` must follow; `%d` reads an integer; `%4s` matches any further text
that is not white space.  The return value is the number of directives
stored, or `-1` (`EOF`) when the input is empty.  `%4s` stores up to 4 bytes
and a NUL into `char dummy[4]`: with 4 or more bytes of text behind the number
the store leaves `dummy`, which is undefined in C, and the value 3 given here
stands for the C call only with up to 3 such bytes. -/
def sscanf_host_port (s : List Nat) (port0 : Int) : Int × List Nat × Int :=
  if s.isEmpty then (-1, [], port0)
  else
    let host := (s.takeWhile (fun b => b != 58)).take 255
    if host.isEmpty then (0, [], port0)
    else
      match s.drop host.length with
      | 58 :: rest =>
        match scan_long rest with
        | none => (1, host, port0)
        | some (v, rest2) =>
          if (rest2.dropWhile isspace).isEmpty then (2, host, int_wrap v)
          else (3, host, int_wrap v)
      | _ => (1, host, port0)

/-- Store `bs` into `buf` from offset `off` on.  A byte whose position lies
outside the object is not stored here; in C such a store is undefined
behaviour, so the value of this function stands for the C object only where
`write_in_bounds` holds. -/
def write_bytes (buf : List Nat) (off : Int) : List Nat → List Nat
  | [] => buf
  | b :: bs => write_bytes (if 0 ≤ off then buf.set off.toNat b else buf) (off + 1) bs

/-- Whether storing `n` bytes from offset `off` on stays inside a buffer of
`cap` bytes. -/
def write_in_bounds (cap : Nat) (off : Int) (n : Nat) : Bool :=
  decide (0 ≤ off) && decide (off + n ≤ cap)

/-! ## `ext-cmd.c`: the reply packet -/

/-- Size of the reply buffer. -/
def REPLY_DATA_SIZE : Nat := 1472

/-- A UDP packet sized reply. -/
structure reply_t where
  data : List Nat
  size : Int
  allow_debug : Bool
deriving DecidableEq, Repr

/-- `r_init`: applied to the reply object as it is found. -/
def r_init (r : reply_t) (allow_debug : Bool) : reply_t :=
  { data := r.data.set 0 0, size := 0, allow_debug := allow_debug }

/-- The libc `vsnprintf( buf + off, n, ... )` for formatted output `text`:
stores at most `n - 1` bytes of the text and a NUL, and returns the length of
the whole text. -/
def vsnprintf (buf : List Nat) (off : Int) (n : Nat) (text : List Nat) : List Nat × Int :=
  if n = 0 then (buf, text.length)
  else (write_bytes buf off (text.take (n - 1) ++ [0]), text.length)

/-- `r_printf`: append formatted output `text` to the packet buffer.  The
limit given to `vsnprintf` is the constant `REPLY_DATA_SIZE - 1`, not the room
left behind `size`, so the stores can leave `data`; in C they then land on
`size` and `allow_debug`, which follow `data` in `struct reply_t`, and behind
the object, and the behaviour is undefined.  The value of this function stands
for the C object only where `r_printf_in_bounds` holds. -/
def r_printf (r : reply_t) (text : List Nat) : reply_t :=
  let res := vsnprintf r.data r.size (REPLY_DATA_SIZE - 1) text
  let written := res.2
  if written > 0 then
    { r with data := res.1, size := r.size + written }
  else
    { r with data := write_bytes res.1 r.size [0] }

/-- Whether the stores of `r_printf r text` stay inside `r.data`: `vsnprintf`
stores the first `min( len, REPLY_DATA_SIZE - 2 )` bytes of the text and a NUL
from `data + size` on. -/
def r_printf_in_bounds (r : reply_t) (text : List Nat) : Bool :=
  write_in_bounds REPLY_DATA_SIZE r.size (min text.length (REPLY_DATA_SIZE - 2) + 1)

/-- The bytes `data[0 .. size)` of a reply, which the transports send. -/
def reply_body (r : reply_t) : List Nat := r.data.take r.size.toNat

/-! ## `ext-cmd.c`: `cmd_to_args` -/

/-- First loop of `cmd_to_args`: zero out every `str[i] <= ' '` for `i <= len`. -/
def cmd_zero_out (char_signed : Bool) (str : List Nat) (len : Nat) : List Nat :=
  (List.range (len + 1)).foldl
    (fun s i => if char_val char_signed (s.getD i 0) ≤ 32 then s.set i 0 else s) str

/-- Second loop of `cmd_to_args` from index `i` on, with `fuel` bounding the
number of iterations: `argv` holds the offsets recorded so far, in order. -/
def cmd_record (str : List Nat) (len : Nat) (max_argv : Int) :
    Nat → Nat → List Nat → List Nat
  | 0, _, argv => argv
  | fuel + 1, i, argv =>
    if i ≤ len then
      if str.getD i 0 = 0 then cmd_record str len max_argv fuel (i + 1) argv
      else if (argv.length : Int) ≥ max_argv - 1 then argv
      else cmd_record str len max_argv fuel (i + strlen_at str i + 1) (argv ++ [i])
    else argv

/-- Result of `cmd_to_args`. -/
structure args_t where
  str : List Nat
  argc : Int
  argv : List (Option Nat)
deriving DecidableEq, Repr

/-- `cmd_to_args`: partition the NUL terminated buffer `str` into arguments.
`argv` holds offsets into the modified buffer, followed by the NULL entry. -/
def cmd_to_args (char_signed : Bool) (str : List Nat) (max_argv : Int) : args_t :=
  let len := strlen_at str 0
  let str1 := cmd_zero_out char_signed str len
  let offs := cmd_record str1 len max_argv (len + 1) 0 []
  { str := str1, argc := offs.length, argv := offs.map some ++ [none] }

/-- The argument strings `argv[0 .. argc)` that a result of `cmd_to_args` denotes. -/
def args_strings (a : args_t) : List (List Nat) :=
  a.argv.filterMap (fun p => p.map (cstr_at a.str))

/-! ## `utils.c` -/

/-- `is_suffix`: whether `str` ends with `suffix`; also matches on equality. -/
def is_suffix (str suffix : List Nat) : Int :=
  let suffix_len := suffix.length
  let str_len := str.length
  if suffix_len > str_len then 0
  else if (str.drop (str_len - suffix_len)).take suffix_len = suffix.take suffix_len then 1
  else 0

/-- `query_sanitize`: remove the configured suffix `query_tld` (the absent
`gconf->query_tld`) and convert to lower case into `buf`.  Returns the return
value and the buffer. -/
def query_sanitize (char_signed : Bool) (query_tld : List Nat)
    (buf : List Nat) (buflen : Nat) (query : List Nat) : Int × List Nat :=
  let len0 := query.length
  let len := if is_suffix query query_tld ≠ 0 then len0 - query_tld.length else len0
  if len + 1 ≥ buflen then (1, buf)
  else
    let buf1 := (List.range len).foldl
      (fun b i => b.set i (to_byte (tolower (char_val char_signed (query.getD i 0))))) buf
    (0, buf1.set len 0)

/-- Amount that one character adds to `xv` in `bytes_from_hex`. -/
def hex_digit_val (char_signed : Bool) (b : Nat) : Int :=
  let c := char_val char_signed b
  if c ≥ 97 then (c - 97) + 10
  else if c ≥ 65 then (c - 65) + 10
  else c - 48

/-- Loop of `bytes_from_hex` over the characters not yet read, at index `i`
with accumulator `xv` (a 64 bit `size_t`). -/
def bytes_from_hex_loop (char_signed : Bool) : List Nat → Nat → Nat → List Nat → List Nat
  | [], _, _, bin => bin
  | c :: cs, i, xv, bin =>
    let xv1 := (((xv : Int) + hex_digit_val char_signed c) % 2 ^ 64).toNat
    if i % 2 = 1 then bytes_from_hex_loop char_signed cs (i + 1) 0 (bin.set (i / 2) (xv1 % 256))
    else bytes_from_hex_loop char_signed cs (i + 1) (xv1 * 16 % 2 ^ 64) bin

/-- `bytes_from_hex`: `hex` holds at least `length` characters. -/
def bytes_from_hex (char_signed : Bool) (bin hex : List Nat) (length : Nat) : List Nat :=
  bytes_from_hex_loop char_signed (hex.take length) 0 0 bin

/-- Lower case hexadecimal digit character of a value below 16. -/
def hex_char (d : Nat) : Nat := if d < 10 then 48 + d else 87 + d

/-- `snprintf( hex + p1, 3, "%02x", b )` for a `uint8_t` value `b`. -/
def snprintf_02x (hex : List Nat) (p1 : Nat) (b : Nat) : List Nat :=
  write_bytes hex p1 [hex_char (b % 256 / 16), hex_char (b % 256 % 16), 0]

/-- Loop of `bytes_to_hex` over the bytes not yet printed, writing at `p1`. -/
def bytes_to_hex_loop : List Nat → Nat → List Nat → List Nat
  | [], _, hex => hex
  | b :: bs, p1, hex => bytes_to_hex_loop bs (p1 + 2) (snprintf_02x hex p1 b)

/-- `bytes_to_hex`: returns the buffer `hex`, which needs `2 * length + 1` bytes. -/
def bytes_to_hex (hex bin : List Nat) (length : Nat) : List Nat :=
  bytes_to_hex_loop (bin.take length) 0 hex

/-- Address family constants (Linux values). -/
def AF_UNSPEC : Int := 0

/-- Address family of IPv4. -/
def AF_INET : Int := 2

/-- Address family of IPv6. -/
def AF_INET6 : Int := 10

/-- A socket address `IP` (`struct sockaddr_storage`): family, raw address
bytes and the port in host byte order. -/
structure IP where
  ss_family : Int
  addr : List Nat
  port : Nat
deriving DecidableEq, Repr

/-- An entry of the list that `getaddrinfo` returns. -/
structure addrinfo where
  ai_family : Int
  ai_addr : IP
deriving DecidableEq, Repr

/-- `str_addr`, with the libc `inet_ntop` as a parameter. -/
def str_addr (inet_ntop : Int → List Nat → List Nat) (addr : IP) : List Nat :=
  if addr.ss_family = AF_INET6 then
    bytes "[" ++ inet_ntop AF_INET6 addr.addr ++ bytes "]:" ++ fmt_u (addr.port % 65536)
  else if addr.ss_family = AF_INET then
    inet_ntop AF_INET addr.addr ++ bytes ":" ++ fmt_u (addr.port % 65536)
  else bytes "<invalid address>"

/-- The `while( p != NULL )` loop of `addr_parse`; `fuel` bounds the number
of iterations and `none` says that it was used up.  The body never advances
`p`. -/
def addr_parse_loop : Nat → IP → List addrinfo → Option (Int × IP)
  | 0, _, _ => none
  | _ + 1, addr, [] => some (-3, addr)
  | fuel + 1, addr, p :: rest =>
    if p.ai_family = AF_INET6 then some (0, p.ai_addr)
    else if p.ai_family = AF_INET then some (0, p.ai_addr)
    else addr_parse_loop fuel addr (p :: rest)

/-- `addr_parse`, with the resolver `getaddrinfo` as a parameter (`none` is a
non-zero return value).  Returns the return value and `*addr`. -/
def addr_parse (getaddrinfo : List Nat → Option (List Nat) → Int → Option (List addrinfo))
    (fuel : Nat) (addr : IP) (addr_str : List Nat) (port_str : Option (List Nat)) (af : Int) :
    Option (Int × IP) :=
  match getaddrinfo addr_str port_str af with
  | none => some (-2, addr)
  | some info => addr_parse_loop fuel addr info

/-- The libc `strchr` as an index. -/
def strchr (s : List Nat) (c : Nat) : Option Nat :=
  if s.indexOf c < s.length then some (s.indexOf c) else none

/-- The libc `strrchr` as an index. -/
def strrchr (s : List Nat) (c : Nat) : Option Nat :=
  if s.reverse.indexOf c < s.length then some (s.length - 1 - s.reverse.indexOf c) else none

/-- The part of `addr_parse_full` before the resolver is called: the pair
`(addr_str, port_str)`, or `none` where the source returns `-1`. -/
def addr_split (full_addr_str default_port : List Nat) : Option (List Nat × List Nat) :=
  let len := full_addr_str.length
  if len ≥ 256 - 1 then none
  else
    let addr_buf := full_addr_str ++ List.replicate (256 - len) 0
    let last_colon := strrchr full_addr_str 58
    if addr_buf.getD 0 0 = 91 then
      match strrchr full_addr_str 93 with
      | none => none
      | some addr_tmp =>
        let buf1 := addr_buf.set addr_tmp 0
        if buf1.getD (addr_tmp + 1) 0 = 0 then some (cstr_at buf1 1, default_port)
        else if buf1.getD (addr_tmp + 1) 0 = 58 then some (cstr_at buf1 1, cstr_at buf1 (addr_tmp + 2))
        else none
    else if last_colon.isSome ∧ last_colon = strchr full_addr_str 58 then
      match last_colon with
      | some addr_tmp =>
        let buf1 := addr_buf.set addr_tmp 0
        some (cstr_at buf1 0, cstr_at buf1 (addr_tmp + 1))
      | none => some (cstr_at addr_buf 0, default_port)
    else some (cstr_at addr_buf 0, default_port)

/-- `addr_parse_full`. -/
def addr_parse_full (getaddrinfo : List Nat → Option (List Nat) → Int → Option (List addrinfo))
    (fuel : Nat) (addr : IP) (full_addr_str default_port : List Nat) (af : Int) :
    Option (Int × IP) :=
  match addr_split full_addr_str default_port with
  | none => some (-1, addr)
  | some (addr_str, port_str) => addr_parse getaddrinfo fuel addr addr_str (some port_str) af

/-! ## `ext-cmd.c`: collaborators -/

/-- An announcement of the registry behind `announces_get`. -/
structure value_t where
  id : List Nat
  port : Int
deriving DecidableEq, Repr

/-- The debug dumpers that the `list` command can invoke. -/
inductive dumper_t where
  | kad_debug_blacklist
  | kad_debug_buckets
  | kad_debug_constants
  | fwd_debug
  | auth_debug_pkeys
  | auth_debug_skeys
  | searches_debug
  | kad_debug_searches
  | kad_debug_storage
  | announces_debug
deriving DecidableEq, Repr

/-- A call with an effect outside the reply, as `cmd_exec` makes them. -/
inductive Call where
  | kad_ping (addr : IP)
  | kad_lookup (query : List Nat)
  | kad_announce_once (id : List Nat) (port : Int)
  | kad_announce (query : List Nat) (port : Int) (lifetime : Int)
  | fwd_add (port : Int) (lifetime : Int)
  | kad_blacklist (addr : IP)
  | kad_export_nodes
  | debug (dumper : dumper_t) (fd : Int)
  | dprintf (fd : Int) (text : List Nat)
deriving DecidableEq, Repr

/-- What the command channel takes from outside `ext-cmd.c` and `utils.c`:
build options, configuration, the cached clock, libc and the DHT.
`kad_lookup` and `kad_export_nodes` get the capacity of the address array and
return the return value and the addresses stored, whose number is `num`;
`kad_status` gets the capacity and returns the text it stores, whose length
is its return value. -/
structure Env where
  FWD : Bool
  AUTH : Bool
  time_now : Int
  is_daemon : Int
  af : Int
  DHT_PORT : List Nat
  inet_ntop : Int → List Nat → List Nat
  getaddrinfo : List Nat → Option (List Nat) → Int → Option (List addrinfo)
  kad_ping : IP → Int
  kad_status : Int → List Nat
  kad_lookup : List Nat → Nat → Int × List IP
  kad_announce : List Nat → Int → Int → Int
  kad_export_nodes : Nat → Int × List IP
  announces_get : List value_t

/-- Outcome of a command: return value, reply and the calls made. -/
structure exec_t where
  rc : Int
  r : reply_t
  calls : List Call

/-- File descriptor of standard output. -/
def STDOUT_FILENO : Int := 1

/-- File descriptor of standard error. -/
def STDERR_FILENO : Int := 2

/-- The usage text `cmd_usage` (the `#if 0` line left out). -/
def cmd_usage : List Nat :=
  bytes "Usage:\n" ++
  bytes "\tstatus\n" ++
  bytes "\tlookup <query>\n" ++
  bytes "\tannounce [<query>[:<port>] [<minutes>]]\n" ++
  bytes "\timport <addr>\n" ++
  bytes "\texport\n" ++
  bytes "\tblacklist <addr>\n"

/-- The usage text `cmd_usage_debug` for the build options `FWD` and `AUTH`. -/
def cmd_usage_debug (FWD AUTH : Bool) : List Nat :=
  bytes "\tlist [blacklist|buckets|constants|" ++
  (if FWD then bytes "forwardings|" else []) ++
  (if AUTH then bytes "skeys|pkeys|" else []) ++
  bytes "results|searches|storage|values]\n"

/-- Content of a local `IP addr` before it is assigned; it is never read. -/
def IP_local : IP := ⟨0, [], 0⟩

/-- Append one line `str_addr( addr ) "\n"` per address, as the loops of
`cmd_export` and of the `lookup` command do. -/
def r_print_addrs (env : Env) (r : reply_t) (addrs : List IP) : reply_t :=
  addrs.foldl (fun r a => r_printf r (str_addr env.inet_ntop a ++ bytes "\n")) r

/-- `cmd_import`. -/
def cmd_import (env : Env) (fuel : Nat) (r : reply_t) (addr_str : List Nat) :
    Option exec_t :=
  match addr_parse_full env.getaddrinfo fuel IP_local addr_str env.DHT_PORT env.af with
  | none => none
  | some (rc, addr) =>
    if rc = 0 then
      if env.kad_ping addr = 0 then
        some ⟨0, r_printf r (bytes "Send ping to: " ++ str_addr env.inet_ntop addr ++ bytes "\n"),
          [Call.kad_ping addr]⟩
      else some ⟨1, r_printf r (bytes "Failed to send ping.\n"), [Call.kad_ping addr]⟩
    else if rc = -1 then some ⟨1, r_printf r (bytes "Failed to parse address.\n"), []⟩
    else some ⟨1, r_printf r (bytes "Failed to resolve address.\n"), []⟩

/-- `cmd_print_status`. -/
def cmd_print_status (env : Env) (r : reply_t) : reply_t :=
  let text := env.kad_status ((REPLY_DATA_SIZE : Int) - r.size)
  { r with data := write_bytes r.data r.size text, size := r.size + text.length }

/-- `cmd_blacklist`. -/
def cmd_blacklist (env : Env) (fuel : Nat) (r : reply_t) (addr_str : List Nat) :
    Option exec_t :=
  match addr_parse env.getaddrinfo fuel IP_local addr_str none env.af with
  | none => none
  | some (rc, addr) =>
    if rc = 0 then
      some ⟨0, r_printf r (bytes "Added to blacklist: " ++ str_addr env.inet_ntop addr ++ bytes "\n"),
        [Call.kad_blacklist addr]⟩
    else some ⟨1, r_printf r (bytes "Invalid address.\n"), []⟩

/-- `cmd_export`. -/
def cmd_export (env : Env) (r : reply_t) : exec_t :=
  let res := env.kad_export_nodes 32
  if res.1 ≠ 0 then ⟨1, r, [Call.kad_export_nodes]⟩
  else
    let r1 := r_print_addrs env r res.2
    if res.2.length = 0 then ⟨1, r_printf r1 (bytes "No good nodes found.\n"), [Call.kad_export_nodes]⟩
    else ⟨0, r1, [Call.kad_export_nodes]⟩

/-! ## `ext-cmd.c`: `cmd_exec` -/

/-- The `lookup` branch of `cmd_exec`. -/
def cmd_exec_lookup (env : Env) (r : reply_t) (query : List Nat) : exec_t :=
  let res := env.kad_lookup query 16
  let rc := res.1
  let num := res.2.length
  if rc ≥ 0 ∧ num > 0 then ⟨0, r_print_addrs env r res.2, [Call.kad_lookup query]⟩
  else if rc < 0 then ⟨1, r_printf r (bytes "Some error occured.\n"), [Call.kad_lookup query]⟩
  else if rc = 0 then ⟨1, r_printf r (bytes "Search in progress.\n"), [Call.kad_lookup query]⟩
  else ⟨1, r_printf r (bytes "Search started.\n"), [Call.kad_lookup query]⟩

/-- The values of `minutes` and `lifetime` that the `announce` branch of
`cmd_exec` computes for `argc == 2` (no minutes argument, `none`) and for
`argc == 3`. -/
def announce_minutes_lifetime (env : Env) (arg : Option (List Nat)) : Int × Int :=
  match arg with
  | none => (0, 0)
  | some s =>
    let minutes := atoi s
    if minutes < 0 then (0, LONG_MAX)
    else
      let minutes1 := int_wrap (30 * (Int.tdiv minutes 30 + 1))
      (minutes1, long_wrap (env.time_now + int_wrap (minutes1 * 60)))

/-- The `announce` branch of `cmd_exec` for `argc == 2` and `argc == 3`:
parse `<hostname>:[<port>]`, announce, add the port forwarding, reply. -/
def cmd_exec_announce (env : Env) (r : reply_t) (target : List Nat)
    (arg : Option (List Nat)) : exec_t :=
  let ml := announce_minutes_lifetime env arg
  let minutes := ml.1
  let lifetime := ml.2
  let sc := sscanf_host_port target 0
  let rc := sc.1
  let hostname := sc.2.1
  let port := sc.2.2
  if rc = 1 ∨ rc = 2 then
    if env.kad_announce hostname port lifetime ≥ 0 then
      let calls := Call.kad_announce hostname port lifetime ::
        (if env.FWD ∧ port ≠ 0 then [Call.fwd_add port lifetime] else [])
      if lifetime = 0 then
        ⟨rc, r_printf r (bytes "Start single announcement now.\n"), calls⟩
      else if lifetime = LONG_MAX then
        ⟨rc, r_printf r (bytes "Start regular announcements for the entire run time (port " ++
          fmt_d port ++ bytes ").\n"), calls⟩
      else
        ⟨rc, r_printf r (bytes "Start regular announcements for " ++ fmt_d minutes ++
          bytes " minutes (port " ++ fmt_d port ++ bytes ").\n"), calls⟩
    else
      ⟨1, r_printf r (bytes "Invalid port or query too long.\n"),
        [Call.kad_announce hostname port lifetime]⟩
  else ⟨1, r_printf r (bytes "Invalid port or query too long.\n"), []⟩

/-- The `announce` branch of `cmd_exec` for `argc == 1`: announce all values. -/
def cmd_exec_announce_all (env : Env) (r : reply_t) : exec_t :=
  let values := env.announces_get
  ⟨0, r_printf r (fmt_d (int_wrap values.length) ++ bytes " announcements started.\n"),
    values.map (fun v => Call.kad_announce_once v.id v.port)⟩

/-- The dumper that the `list` branch selects for its argument, if any. -/
def list_dumper (env : Env) (arg : List Nat) : Option dumper_t :=
  if arg = bytes "blacklist" then some dumper_t.kad_debug_blacklist
  else if arg = bytes "buckets" then some dumper_t.kad_debug_buckets
  else if arg = bytes "constants" then some dumper_t.kad_debug_constants
  else if env.FWD ∧ arg = bytes "forwardings" then some dumper_t.fwd_debug
  else if env.AUTH ∧ arg = bytes "pkeys" then some dumper_t.auth_debug_pkeys
  else if env.AUTH ∧ arg = bytes "skeys" then some dumper_t.auth_debug_skeys
  else if arg = bytes "results" then some dumper_t.searches_debug
  else if arg = bytes "searches" then some dumper_t.kad_debug_searches
  else if arg = bytes "storage" then some dumper_t.kad_debug_storage
  else if arg = bytes "values" then some dumper_t.announces_debug
  else none

/-- The `list` branch of `cmd_exec`. -/
def cmd_exec_list (env : Env) (r : reply_t) (arg : List Nat) : exec_t :=
  if env.is_daemon = 1 then
    ⟨1, r_printf r (bytes "The 'list' command is not available while KadNode runs as daemon.\n"), []⟩
  else
    match list_dumper env arg with
    | some d => ⟨0, r_printf r (bytes "\nOutput send to console.\n"), [Call.debug d STDOUT_FILENO]⟩
    | none => ⟨1, r_printf r (bytes "\nOutput send to console.\n"),
        [Call.dprintf STDERR_FILENO (bytes "Unknown argument.\n")]⟩

/-- The usage branches of `cmd_exec`. -/
def cmd_exec_usage (env : Env) (r : reply_t) : exec_t :=
  let r1 := r_printf r cmd_usage
  ⟨1, if r1.allow_debug then r_printf r1 (cmd_usage_debug env.FWD env.AUTH) else r1, []⟩

/-- `cmd_exec` on the argument strings `argv[0 .. argc)`; `none` says that
`fuel` iterations did not suffice for the resolver loop of `addr_parse`. -/
def cmd_exec (env : Env) (fuel : Nat) (r : reply_t) (argv : List (List Nat)) : Option exec_t :=
  let argc := argv.length
  let argv0 := argv.getD 0 []
  let argv1 := argv.getD 1 []
  if argc = 0 then some (cmd_exec_usage env r)
  else if argv0 = bytes "import" ∧ argc = 2 then cmd_import env fuel r argv1
  else if argv0 = bytes "lookup" ∧ argc = 2 then some (cmd_exec_lookup env r argv1)
  else if argv0 = bytes "status" ∧ argc = 1 then some ⟨0, cmd_print_status env r, []⟩
  else if argv0 = bytes "announce" ∧ (argc = 1 ∨ argc = 2 ∨ argc = 3) then
    if argc = 1 then some (cmd_exec_announce_all env r)
    else if argc = 2 then some (cmd_exec_announce env r argv1 none)
    else some (cmd_exec_announce env r argv1 (some (argv.getD 2 [])))
  else if argc = 2 ∧ argv0 = bytes "blacklist" then cmd_blacklist env fuel r argv1
  else if argc = 1 ∧ argv0 = bytes "export" then some (cmd_export env r)
  else if argc = 2 ∧ argv0 = bytes "list" ∧ r.allow_debug then some (cmd_exec_list env r argv1)
  else some (cmd_exec_usage env r)

/-- Outcome of one datagram on the command socket. -/
structure remote_t where
  sent : List Nat
  rc : Int
  r : reply_t
  calls : List Call

/-- `cmd_remote_handler` for a received `datagram`, with `reply` the content
of the local reply object on entry.  `some none` says that nothing is sent,
`none` that `fuel` did not suffice. -/
def cmd_remote_handler (env : Env) (char_signed : Bool) (fuel : Nat) (reply : reply_t)
    (datagram : List Nat) : Option (Option remote_t) :=
  let rc := (datagram.take (1500 - 1)).length
  if rc ≤ 0 then some none
  else
    let request := datagram.take (1500 - 1) ++ [0]
    let reply1 := r_printf (r_init reply false) (bytes "_")
    let args := cmd_to_args char_signed request 32
    match cmd_exec env fuel reply1 (args_strings args) with
    | none => none
    | some e =>
      let reply2 := { e.r with data := e.r.data.set 0 (if e.rc = 0 then 48 else 49) }
      some (some ⟨reply_body reply2, e.rc, reply2, e.calls⟩)

/-! ## Concrete inputs used by the evaluations below -/

/-- A reply object whose bytes are all zero on entry. -/
def reply_zero : reply_t := ⟨List.replicate REPLY_DATA_SIZE 0, 0, false⟩

/-- The IPv6 address `2001:1db8:1111:2222:3333:4444:5555:6666`, port 51413. -/
def addr_long : IP :=
  ⟨AF_INET6, [0x20, 0x01, 0x1d, 0xb8, 0x11, 0x11, 0x22, 0x22, 0x33, 0x33, 0x44, 0x44, 0x55, 0x55,
    0x66, 0x66], 51413⟩

/-- A node built with `FWD` and `AUTH`, not a daemon, clock at 1000 s, whose
DHT accepts every announcement (`kad_announce` returns 0), has no announced
values, answers a lookup with "started", and exports 32 nodes with the
address `addr_long`. -/
def env_demo : Env where
  FWD := true
  AUTH := true
  time_now := 1000
  is_daemon := 0
  af := AF_UNSPEC
  DHT_PORT := bytes "6881"
  inet_ntop := fun af a =>
    if af = AF_INET6 ∧ a = addr_long.addr then bytes "2001:1db8:1111:2222:3333:4444:5555:6666"
    else bytes "0.0.0.0"
  getaddrinfo := fun _ _ _ => none
  kad_ping := fun _ => 0
  kad_status := fun _ => []
  kad_lookup := fun _ _ => (1, [])
  kad_announce := fun _ _ _ => 0
  kad_export_nodes := fun _ => (0, List.replicate 32 addr_long)
  announces_get := []

/-- What a test of `cmd_remote_handler` observes: the return value of
`cmd_exec`, the datagram sent and the calls made. -/
def remote_view (x : Option (Option remote_t)) : Option (Option (Int × List Nat × List Call)) :=
  x.map (fun y => y.map (fun t => (t.rc, t.sent, t.calls)))

/-! ## Hexadecimal text and lower-casing, in the words of the specification -/

/-- Whether a byte is one of the characters `0-9a-f`. -/
def is_lower_hex (c : Nat) : Bool := (48 ≤ c && c ≤ 57) || (97 ≤ c && c ≤ 102)

/-- Value of a hexadecimal digit character `0-9a-f`. -/
def lower_hex_val (c : Nat) : Nat := if 97 ≤ c then c - 87 else c - 48

/-- The bytes denoted by a text of hexadecimal digit pairs. -/
def hex_pairs : List Nat → List Nat
  | a :: b :: rest => (lower_hex_val a * 16 + lower_hex_val b) :: hex_pairs rest
  | _ => []

/-- The text of two lower case hexadecimal digits per byte. -/
def hex_text : List Nat → List Nat
  | [] => []
  | b :: bs => hex_char (b % 256 / 16) :: hex_char (b % 256 % 16) :: hex_text bs

/-- ASCII lower-casing of a byte. -/
def ascii_lower (b : Nat) : Nat := if 65 ≤ b ∧ b ≤ 90 then b + 32 else b

/-! ## Tokens of a request, in the words of the specification -/

/-- Whether `cmd_to_args` zeroes out a byte: its `char` value is at most `' '`. -/
def is_separator (char_signed : Bool) (b : Nat) : Bool := decide (char_val char_signed b ≤ 32)

/-- The maximal non-empty runs of bytes that are not separators, in input
order; `cur` is the run being collected. -/
def token_runs (sep : Nat → Bool) : List Nat → List Nat → List (List Nat)
  | [], cur => if cur.isEmpty then [] else [cur]
  | b :: bs, cur =>
    if sep b then (if cur.isEmpty then token_runs sep bs [] else cur :: token_runs sep bs [])
    else token_runs sep bs (cur ++ [b])

/-- The maximal non-empty runs of bytes whose value is greater than `0x20`. -/
def runs_above_space (s : List Nat) : List (List Nat) :=
  token_runs (fun b => decide (b ≤ 32)) s []

/-- The byte that the first loop of `cmd_to_args` leaves in place of `b`. -/
def zero_sep (char_signed : Bool) (b : Nat) : Nat := if is_separator char_signed b then 0 else b

/-- A resolver that knows the address `127.0.0.1` with port `7000` only. -/
def resolver_demo : List Nat → Option (List Nat) → Int → Option (List addrinfo) :=
  fun addr_str port_str _ =>
    if addr_str = bytes "127.0.0.1" ∧ port_str = some (bytes "7000") then
      some [⟨AF_INET, ⟨AF_INET, [127, 0, 0, 1], 7000⟩⟩]
    else none

/-! ## `forwardings.c` -/

/-- A node of the forwarding list (`struct forwarding_t`); `ptr` is the address
of the node, `next` is given by the order of the list that holds it. -/
structure forwarding_t where
  ptr : Nat
  port : Int
  lifetime : Int
  refreshed : Int
deriving DecidableEq, Repr

/-- The global `forwardings`: `beg` holds the nodes reached from `beg` along
`next`, `cur` is the address of a node or NULL (`none`). -/
structure forwardings_t where
  retry : Int
  beg : List forwarding_t
  cur : Option Nat
deriving DecidableEq, Repr

/-- The initial value of `forwardings`. -/
def forwardings_init : forwardings_t := ⟨0, [], none⟩

/-- `forwardings_count`. -/
def forwardings_count (f : forwardings_t) : Int := int_wrap f.beg.length

/-- The `while` loop of `forwardings_add`: set the lifetime of the first node
with the port; `none` when the loop ends without finding one. -/
def forwardings_add_loop : List forwarding_t → Int → Int → Option (List forwarding_t)
  | [], _, _ => none
  | e :: es, port, lifetime =>
    if e.port = port then some ({ e with lifetime := lifetime } :: es)
    else (forwardings_add_loop es port lifetime).map (fun l => e :: l)

/-- `forwardings_add` for a `USHORT` port; `new` is the address that `malloc`
returns when a node is allocated. -/
def forwardings_add (new : Nat) (f : forwardings_t) (port : Nat) (lifetime : Int) :
    forwardings_t :=
  if port ≤ 1 then f
  else
    match forwardings_add_loop f.beg port lifetime with
    | some beg => { f with beg := beg }
    | none => { f with beg := ⟨new, port, lifetime, 0⟩ :: f.beg, retry := 0 }

/-- The `while` loop of `forwardings_remove`: unlink the first node whose
address is `item`. -/
def forwardings_remove_loop : List forwarding_t → Nat → List forwarding_t
  | [], _ => []
  | e :: es, item => if e.ptr = item then es else e :: forwardings_remove_loop es item

/-- `forwardings_remove` for the node address `item`. -/
def forwardings_remove (f : forwardings_t) (item : Nat) : forwardings_t :=
  { f with cur := if f.cur = some item then none else f.cur,
           beg := forwardings_remove_loop f.beg item }

/-- Return value of a back-end handler: the constants `PF_DONE`, `PF_ERROR`
and `PF_RETRY` of the absent header, taken as distinct, or another value. -/
inductive pf_t where
  | PF_DONE
  | PF_ERROR
  | PF_RETRY
  | other (rc : Int)
deriving DecidableEq, Repr

/-- A call of a back-end function, as `forwardings_handle` makes them. -/
inductive fwd_call where
  | natpmp_handler (port : Int) (lifespan : Int) (now : Int)
  | natpmp_init
  | natpmp_uninit
  | upnp_handler (port : Int) (lifespan : Int) (now : Int)
  | upnp_init
  | upnp_uninit
deriving DecidableEq, Repr

/-- The build options `FWD_NATPMP` and `FWD_UPNP`. -/
structure fwd_build where
  FWD_NATPMP : Bool
  FWD_UPNP : Bool
deriving DecidableEq, Repr

/-- The globals of `forwardings.c`: the list and whether the handles `natpmp`
and `upnp` are not NULL. -/
structure fwd_state where
  forwardings : forwardings_t
  natpmp : Bool
  upnp : Bool
deriving DecidableEq, Repr

/-- What one invocation of `forwardings_handle` takes from outside the file:
the cached clock `gstate->time_now.tv_sec`, and for either back-end what its
handler returns when called and whether its handle is not NULL after `init`
and after `uninit`. -/
structure tick_t where
  now : Int
  natpmp_rc : pf_t
  natpmp_after_init : Bool
  natpmp_after_uninit : Bool
  upnp_rc : pf_t
  upnp_after_init : Bool
  upnp_after_uninit : Bool
deriving DecidableEq, Repr

/-- The test `(item->refreshed + (30 * 60)) < now` of the scan. -/
def forwarding_due (now : Int) (e : forwarding_t) : Bool :=
  decide (long_wrap (e.refreshed + 30 * 60) < now)

/-- The nodes from the node with address `p` on; a `cur` that is not in the
list cannot be followed in C and gives no node here. -/
def forwardings_from (beg : List forwarding_t) (p : Nat) : List forwarding_t :=
  beg.dropWhile (fun e => e.ptr != p)

/-- First part of `forwardings_handle`: the nodes that the scan runs over and
the value of `retry`, or `none` where the function returns at once. -/
def scan_start (now : Int) (f : forwardings_t) : Option (List forwarding_t × Int) :=
  match f.cur with
  | some p => some (forwardings_from f.beg p, f.retry)
  | none => if f.retry > now then none else some (f.beg, long_wrap (now + 1 * 60))

/-- The value of `lifespan` for the selected node. -/
def forwarding_lifespan (now : Int) (item : forwarding_t) : Int :=
  if item.lifetime < now then 0 else 32 * 60

/-- The assignment `item->refreshed = now`. -/
def set_refreshed (beg : List forwarding_t) (item : Nat) (now : Int) : List forwarding_t :=
  beg.map (fun e => if e.ptr = item then { e with refreshed := now } else e)

/-- The `PF_DONE` branch of either back-end: remove the node or refresh it. -/
def forwarding_done (f : forwardings_t) (item : forwarding_t) (lifespan now : Int) :
    forwardings_t :=
  if lifespan = 0 then forwardings_remove f item.ptr
  else { f with beg := set_refreshed f.beg item.ptr now }

/-- The `FWD_NATPMP` block of `forwardings_handle` for the selected node:
whether the function returns in it, the list, the handle and the calls. -/
def natpmp_block (b : fwd_build) (t : tick_t) (natpmp : Bool) (f : forwardings_t)
    (item : forwarding_t) (lifespan : Int) : Bool × forwardings_t × Bool × List fwd_call :=
  if b.FWD_NATPMP then
    if natpmp then
      match t.natpmp_rc with
      | pf_t.PF_DONE =>
        (true, forwarding_done f item lifespan t.now, natpmp,
          [fwd_call.natpmp_handler item.port lifespan t.now])
      | pf_t.PF_ERROR =>
        (false, f, t.natpmp_after_uninit,
          [fwd_call.natpmp_handler item.port lifespan t.now, fwd_call.natpmp_uninit])
      | pf_t.PF_RETRY => (false, f, natpmp, [fwd_call.natpmp_handler item.port lifespan t.now])
      | pf_t.other _ => (false, f, natpmp, [fwd_call.natpmp_handler item.port lifespan t.now])
    else (false, f, t.natpmp_after_init, [fwd_call.natpmp_init])
  else (false, f, natpmp, [])

/-- The `FWD_UPNP` block of `forwardings_handle` for the selected node: the
list, the handle and the calls. -/
def upnp_block (b : fwd_build) (t : tick_t) (upnp : Bool) (f : forwardings_t)
    (item : forwarding_t) (lifespan : Int) : forwardings_t × Bool × List fwd_call :=
  if b.FWD_UPNP then
    if upnp then
      match t.upnp_rc with
      | pf_t.PF_DONE =>
        (forwarding_done f item lifespan t.now, upnp,
          [fwd_call.upnp_handler item.port lifespan t.now])
      | pf_t.PF_ERROR =>
        (f, t.upnp_after_uninit,
          [fwd_call.upnp_handler item.port lifespan t.now, fwd_call.upnp_uninit])
      | pf_t.PF_RETRY => (f, upnp, [fwd_call.upnp_handler item.port lifespan t.now])
      | pf_t.other _ => (f, upnp, [fwd_call.upnp_handler item.port lifespan t.now])
    else (f, t.upnp_after_init, [fwd_call.upnp_init])
  else (f, upnp, [])

/-- `forwardings_handle`: the globals after the call and the calls made. -/
def forwardings_handle (b : fwd_build) (t : tick_t) (s : fwd_state) :
    fwd_state × List fwd_call :=
  match scan_start t.now s.forwardings with
  | none => (s, [])
  | some (start, retry) =>
    match start.find? (forwarding_due t.now) with
    | none => ({ s with forwardings := { s.forwardings with retry := retry, cur := none } }, [])
    | some item =>
      let f1 : forwardings_t := { s.forwardings with retry := retry, cur := some item.ptr }
      let lifespan := forwarding_lifespan t.now item
      let n := natpmp_block b t s.natpmp f1 item lifespan
      if n.1 then (⟨n.2.1, n.2.2.1, s.upnp⟩, n.2.2.2)
      else
        let u := upnp_block b t s.upnp n.2.1 item lifespan
        (⟨u.1, n.2.2.1, u.2.1⟩, n.2.2.2 ++ u.2.2)

/-- The states of `forwardings.c` reachable from the empty list by
`forwardings_add` (with `malloc` returning an address not in use),
`forwardings_remove` and `forwardings_handle`. -/
inductive fwd_reachable (b : fwd_build) : fwd_state → Prop where
  | init (natpmp upnp : Bool) : fwd_reachable b ⟨forwardings_init, natpmp, upnp⟩
  | add (s : fwd_state) (new port : Nat) (lifetime : Int) :
      fwd_reachable b s → (∀ e ∈ s.forwardings.beg, e.ptr ≠ new) →
      fwd_reachable b { s with forwardings := forwardings_add new s.forwardings port lifetime }
  | remove (s : fwd_state) (item : Nat) :
      fwd_reachable b s →
      fwd_reachable b { s with forwardings := forwardings_remove s.forwardings item }
  | handle (s : fwd_state) (t : tick_t) :
      fwd_reachable b s → fwd_reachable b (forwardings_handle b t s).1

/-- Whether a call is a call of a back-end handler. -/
def is_handler_call : fwd_call → Bool
  | fwd_call.natpmp_handler _ _ _ => true
  | fwd_call.upnp_handler _ _ _ => true
  | _ => false

/-- A tick at 10000 s in which both handlers return `PF_RETRY`. -/
def tick_retry : tick_t := ⟨10000, pf_t.PF_RETRY, true, false, pf_t.PF_RETRY, true, false⟩

/-- The state after `forwardings_add( 5000, LONG_MAX )` on the empty list, with
both back-ends initialised. -/
def fwd_demo : fwd_state := ⟨forwardings_add 1 forwardings_init 5000 LONG_MAX, true, true⟩

/-- The invariant of the forwarding list: node addresses are pairwise
different, ports are pairwise different, and `cur` is NULL or the address of a
node of the list. -/
def fwd_inv (f : forwardings_t) : Prop :=
  (f.beg.map (fun e => e.ptr)).Nodup ∧ (f.beg.map (fun e => e.port)).Nodup ∧
    ∀ p, f.cur = some p → ∃ e ∈ f.beg, e.ptr = p

/-- A resolver whose answer for `node.p2p` lists an endpoint of another
address family (family 1) before the IPv4 endpoint `10.0.0.1`, port 7000. -/
def resolver_mixed : List Nat → Option (List Nat) → Int → Option (List addrinfo) :=
  fun addr_str _ _ =>
    if addr_str = bytes "node.p2p" then
      some [⟨1, ⟨1, [], 0⟩⟩, ⟨AF_INET, ⟨AF_INET, [10, 0, 0, 1], 7000⟩⟩]
    else none

/-- The states of `forwardings.c` reachable from the empty list by
`forwardings_add` (with `malloc` returning an address not in use) and by ticks
of `forwardings_handle`, together with the value of the clock: the clock starts
at a non-negative value and never goes back, and a tick gets the value that
the clock has then. -/
inductive fwd_clock_reachable (b : fwd_build) : fwd_state → Int → Prop where
  | init (natpmp upnp : Bool) (now : Int) :
      0 ≤ now → fwd_clock_reachable b ⟨forwardings_init, natpmp, upnp⟩ now
  | add (s : fwd_state) (now : Int) (new port : Nat) (lifetime : Int) :
      fwd_clock_reachable b s now → (∀ e ∈ s.forwardings.beg, e.ptr ≠ new) →
      fwd_clock_reachable b
        { s with forwardings := forwardings_add new s.forwardings port lifetime } now
  | handle (s : fwd_state) (now : Int) (t : tick_t) :
      fwd_clock_reachable b s now → now ≤ t.now →
      fwd_clock_reachable b (forwardings_handle b t s).1 t.now
  | wait (s : fwd_state) (now later : Int) :
      fwd_clock_reachable b s now → now ≤ later → fwd_clock_reachable b s later

/-! # Theorems -/

/-! ## Machine integers -/

theorem int_wrap_eq (x : Int) (h1 : -2 ^ 31 ≤ x) (h2 : x < 2 ^ 31) : int_wrap x = x := by
  unfold int_wrap
  omega

theorem long_wrap_eq (x : Int) (h1 : LONG_MIN ≤ x) (h2 : x ≤ LONG_MAX) : long_wrap x = x := by
  unfold long_wrap
  unfold LONG_MIN at h1
  unfold LONG_MAX at h2
  omega

/-! ## The `announce` command -/

theorem cmd_exec_announce_two (env : Env) (fuel : Nat) (r : reply_t) (target : List Nat) :
    cmd_exec env fuel r [bytes "announce", target] = some (cmd_exec_announce env r target none) := by
  have h1 : bytes "announce" ≠ bytes "import" := by decide
  have h2 : bytes "announce" ≠ bytes "lookup" := by decide
  have h3 : bytes "announce" ≠ bytes "status" := by decide
  simp [cmd_exec, h1, h2, h3]

theorem cmd_exec_announce_three (env : Env) (fuel : Nat) (r : reply_t) (target m : List Nat) :
    cmd_exec env fuel r [bytes "announce", target, m] =
      some (cmd_exec_announce env r target (some m)) := by
  have h1 : bytes "announce" ≠ bytes "import" := by decide
  have h2 : bytes "announce" ≠ bytes "lookup" := by decide
  have h3 : bytes "announce" ≠ bytes "status" := by decide
  simp [cmd_exec, h1, h2, h3]

/-- The `announce` branch with a query argument never returns 0: the return
value is 1 on rejection and the count returned by `sscanf` (1 or 2) otherwise. -/
theorem cmd_exec_announce_rc (env : Env) (r : reply_t) (target : List Nat)
    (arg : Option (List Nat)) :
    (cmd_exec_announce env r target arg).rc = 1 ∨ (cmd_exec_announce env r target arg).rc = 2 := by
  unfold cmd_exec_announce
  simp only
  split_ifs with h1 h2 h3 h4 <;> first | exact h1 | exact Or.inl rfl

/-- The calls of the `announce` branch: `kad_announce` once the target parses,
`fwd_add` after it when the DHT accepts, `FWD` is built in and the port is not 0;
both get the lifetime computed from the minutes argument. -/
theorem cmd_exec_announce_calls (env : Env) (r : reply_t) (target : List Nat)
    (arg : Option (List Nat)) :
    (cmd_exec_announce env r target arg).calls =
      if (sscanf_host_port target 0).1 = 1 ∨ (sscanf_host_port target 0).1 = 2 then
        Call.kad_announce (sscanf_host_port target 0).2.1 (sscanf_host_port target 0).2.2
            (announce_minutes_lifetime env arg).2 ::
          (if env.kad_announce (sscanf_host_port target 0).2.1 (sscanf_host_port target 0).2.2
                (announce_minutes_lifetime env arg).2 ≥ 0 ∧
              env.FWD ∧ (sscanf_host_port target 0).2.2 ≠ 0 then
            [Call.fwd_add (sscanf_host_port target 0).2.2 (announce_minutes_lifetime env arg).2]
          else [])
      else [] := by
  unfold cmd_exec_announce
  simp only
  split_ifs <;> simp_all

/-- Rounding of a non-negative minutes argument `m` (small enough for `int`):
the value used is `30 * (m / 30 + 1)`, the least multiple of 30 strictly above
`m`, and the lifetime is the clock plus 60 times it. -/
theorem announce_minutes_rounding (env : Env) (s : List Nat)
    (h0 : 0 ≤ atoi s) (h1 : atoi s ≤ 35791000)
    (hlo : LONG_MIN ≤ env.time_now) (hhi : env.time_now + 60 * (atoi s + 30) ≤ LONG_MAX) :
    announce_minutes_lifetime env (some s) =
        (30 * (atoi s / 30 + 1), env.time_now + 60 * (30 * (atoi s / 30 + 1))) ∧
      atoi s < 30 * (atoi s / 30 + 1) ∧ 30 * (atoi s / 30 + 1) ≤ atoi s + 30 := by
  have hm : 30 * (atoi s / 30 + 1) ≤ atoi s + 30 ∧ atoi s < 30 * (atoi s / 30 + 1) := by omega
  refine ⟨?_, hm.2, hm.1⟩
  unfold announce_minutes_lifetime
  simp only
  rw [if_neg (by omega), Int.tdiv_eq_ediv h0 (by norm_num)]
  rw [int_wrap_eq _ (by omega) (by omega), int_wrap_eq _ (by omega) (by omega)]
  unfold LONG_MIN at hlo
  unfold LONG_MAX at hhi
  rw [long_wrap_eq _ (by unfold LONG_MIN; omega) (by unfold LONG_MAX; omega)]
  congr 1
  ring

/-- C1, evaluated on the code: for the datagrams `announce foo.p2p:0` and
`announce foo.p2p:5000 45`, whose targets parse and which the DHT accepts,
`cmd_exec` returns the count of `sscanf` (2), not 0, so the reply starts with
the status byte `1`; the announcement itself is made. -/
theorem announce_accepted_status_byte :
    remote_view (cmd_remote_handler env_demo true 0 reply_zero (bytes "announce foo.p2p:0")) =
        some (some (2, bytes "1Start single announcement now.\n",
          [Call.kad_announce (bytes "foo.p2p") 0 0])) ∧
      remote_view (cmd_remote_handler env_demo true 0 reply_zero
          (bytes "announce foo.p2p:5000 45")) =
        some (some (2, bytes "1Start regular announcements for 60 minutes (port 5000).\n",
          [Call.kad_announce (bytes "foo.p2p") 5000 4600, Call.fwd_add 5000 4600])) := by
  constructor <;> decide!

/-- C3, counterexample: with the clock at 1000 s, `announce foo.p2p:5000 0`
passes the lifetime 2800 to `kad_announce` and to `fwd_add` and reports 30
minutes, while the same request without the minutes argument passes 0. -/
theorem announce_zero_minutes_not_single_shot :
    (cmd_exec env_demo 0 reply_zero [bytes "announce", bytes "foo.p2p:5000", bytes "0"]).map
        (fun e => (e.calls, reply_body e.r)) =
      some ([Call.kad_announce (bytes "foo.p2p") 5000 2800, Call.fwd_add 5000 2800],
        bytes "Start regular announcements for 30 minutes (port 5000).\n") ∧
    (cmd_exec env_demo 0 reply_zero [bytes "announce", bytes "foo.p2p:5000"]).map
        (fun e => (e.calls, reply_body e.r)) =
      some ([Call.kad_announce (bytes "foo.p2p") 5000 0, Call.fwd_add 5000 0],
        bytes "Start single announcement now.\n") := by
  constructor <;> decide!

/-- C3, amended: a minutes argument of 0 is rounded like every non-negative
minutes value.  Every call of `kad_announce` and `fwd_add` gets the lifetime
`time_now + 60 * M` for the rounded minutes value `M`, a multiple of 30 with
`0 ≤ M ≤ 30`, and `kad_announce` is called whenever the target parses. -/
theorem announce_zero_minutes_lifetime (env : Env) (fuel : Nat) (r : reply_t)
    (target : List Nat)
    (hlo : LONG_MIN ≤ env.time_now) (hhi : env.time_now + 1800 ≤ LONG_MAX) :
    ∃ M : Int, 30 ∣ M ∧ 0 ≤ M ∧ M ≤ 30 ∧
      (announce_minutes_lifetime env (some (bytes "0"))).1 = M ∧
      ∃ e, cmd_exec env fuel r [bytes "announce", target, bytes "0"] = some e ∧
        (∀ c ∈ e.calls,
          c = Call.kad_announce (sscanf_host_port target 0).2.1 (sscanf_host_port target 0).2.2
                (env.time_now + 60 * M) ∨
          c = Call.fwd_add (sscanf_host_port target 0).2.2 (env.time_now + 60 * M)) ∧
        ((sscanf_host_port target 0).1 = 1 ∨ (sscanf_host_port target 0).1 = 2 →
          Call.kad_announce (sscanf_host_port target 0).2.1 (sscanf_host_port target 0).2.2
            (env.time_now + 60 * M) ∈ e.calls) := by
  have ha : atoi (bytes "0") = 0 := by decide
  have hr := (announce_minutes_rounding env (bytes "0") (by rw [ha]) (by rw [ha]; norm_num)
    hlo (by rw [ha]; norm_num; exact hhi)).1
  rw [ha] at hr
  refine ⟨30, by norm_num, by norm_num, by norm_num, by rw [hr]; norm_num, _,
    cmd_exec_announce_three env fuel r target (bytes "0"), ?_, ?_⟩
  · intro c hc
    rw [cmd_exec_announce_calls, hr] at hc
    norm_num at hc
    rcases hc.2 with hc | hc
    · exact Or.inl (by rw [hc]; norm_num)
    · exact Or.inr (by rw [hc.2]; norm_num)
  · intro h
    rw [cmd_exec_announce_calls, hr, if_pos h]
    norm_num

/-- The statement above at `announce foo.p2p:5000 0` with the clock at 1000 s. -/
theorem announce_zero_minutes_lifetime_witness :
    LONG_MIN ≤ env_demo.time_now ∧ env_demo.time_now + 1800 ≤ LONG_MAX ∧
      ∃ M : Int, 30 ∣ M ∧ 0 ≤ M ∧ M ≤ 30 ∧
        (announce_minutes_lifetime env_demo (some (bytes "0"))).1 = M ∧
        ∃ e, cmd_exec env_demo 0 reply_zero
            [bytes "announce", bytes "foo.p2p:5000", bytes "0"] = some e ∧
          (∀ c ∈ e.calls,
            c = Call.kad_announce (sscanf_host_port (bytes "foo.p2p:5000") 0).2.1
                  (sscanf_host_port (bytes "foo.p2p:5000") 0).2.2
                  (env_demo.time_now + 60 * M) ∨
            c = Call.fwd_add (sscanf_host_port (bytes "foo.p2p:5000") 0).2.2
                  (env_demo.time_now + 60 * M)) ∧
          ((sscanf_host_port (bytes "foo.p2p:5000") 0).1 = 1 ∨
              (sscanf_host_port (bytes "foo.p2p:5000") 0).1 = 2 →
            Call.kad_announce (sscanf_host_port (bytes "foo.p2p:5000") 0).2.1
              (sscanf_host_port (bytes "foo.p2p:5000") 0).2.2
              (env_demo.time_now + 60 * M) ∈ e.calls) :=
  ⟨by decide, by decide,
    announce_zero_minutes_lifetime env_demo 0 reply_zero (bytes "foo.p2p:5000")
      (by decide) (by decide)⟩

/-- C4, evaluated on the code: with the clock at 1000 s,
`announce foo.p2p:5000 30` uses and reports 60 minutes and the lifetime
1000 + 3600, although the least multiple of 30 that is at least 30 is 30;
`announce foo.p2p:5000 31` gives 60 minutes as well. -/
theorem announce_thirty_minutes_rounds_to_sixty :
    (cmd_exec env_demo 0 reply_zero [bytes "announce", bytes "foo.p2p:5000", bytes "30"]).map
        (fun e => (e.calls, reply_body e.r)) =
      some ([Call.kad_announce (bytes "foo.p2p") 5000 4600, Call.fwd_add 5000 4600],
        bytes "Start regular announcements for 60 minutes (port 5000).\n") ∧
    (cmd_exec env_demo 0 reply_zero [bytes "announce", bytes "foo.p2p:5000", bytes "31"]).map
        (fun e => (e.calls, reply_body e.r)) =
      some ([Call.kad_announce (bytes "foo.p2p") 5000 4600, Call.fwd_add 5000 4600],
        bytes "Start regular announcements for 60 minutes (port 5000).\n") := by
  constructor <;> decide!

/-- Where the stores of `r_printf` stay inside `data`, it adds the length of
the whole formatted text to `size`, whatever room is left in `data`. -/
theorem r_printf_size (r : reply_t) (text : List Nat)
    (_h : r_printf_in_bounds r text = true) :
    (r_printf r text).size = r.size + text.length := by
  unfold r_printf vsnprintf
  have h : REPLY_DATA_SIZE - 1 ≠ 0 := by decide
  simp only [if_neg h]
  split_ifs with hw
  · rfl
  · have h0 : text.length = 0 := by
      have : ¬ ((text.length : Int) > 0) := hw
      omega
    simp [h0]

/-- The reply to `export` for IPv6 nodes that print as
`[2001:1db8:1111:2222:3333:4444:5555:6666]:51413`: the status byte and each of
the first 30 lines are stored inside `data`, `size` is 1441 after them, and
the stores of the `r_printf` of line 31 leave `data`. -/
theorem export_line_31_out_of_bounds :
    (∀ n ≤ 29, r_printf_in_bounds
        (r_print_addrs env_demo (r_printf (r_init reply_zero false) (bytes "_"))
          (List.replicate n addr_long))
        (str_addr env_demo.inet_ntop addr_long ++ bytes "\n") = true) ∧
    (r_print_addrs env_demo (r_printf (r_init reply_zero false) (bytes "_"))
        (List.replicate 30 addr_long)).size = 1441 ∧
    r_printf_in_bounds
        (r_print_addrs env_demo (r_printf (r_init reply_zero false) (bytes "_"))
          (List.replicate 30 addr_long))
        (str_addr env_demo.inet_ntop addr_long ++ bytes "\n") = false := by
  refine ⟨?_, ?_, ?_⟩ <;> decide!

/-- C2, evaluated on the code: one `r_printf` of a text of 1473 bytes into a
reply fresh from `r_init` stays inside `data`, where `vsnprintf` stores the
first 1470 bytes and a NUL, and sets `size` to 1473, above 1472: the bytes
that were dropped are counted in `size`. -/
theorem r_printf_size_exceeds_buffer :
    r_printf_in_bounds (r_init reply_zero false) (List.replicate 1473 97) = true ∧
    (r_printf (r_init reply_zero false) (List.replicate 1473 97)).size = 1473 := by
  refine ⟨?_, ?_⟩ <;> decide!

/-! ## `bytes_from_hex` and `bytes_to_hex` -/

theorem set_at_length {α : Type} (pre rest : List α) (x v : α) :
    (pre ++ x :: rest).set pre.length v = pre ++ v :: rest := by
  induction pre with
  | nil => rfl
  | cons p ps ih => simp [ih]

theorem write_bytes_nat_cons (buf : List Nat) (n : Nat) (b : Nat) (bs : List Nat) :
    write_bytes buf (n : Int) (b :: bs) = write_bytes (buf.set n b) ((n + 1 : Nat) : Int) bs := by
  simp [write_bytes]

theorem write_bytes_at_length (pre old new post : List Nat) (h : old.length = new.length) :
    write_bytes (pre ++ old ++ post) (pre.length : Int) new = pre ++ new ++ post := by
  induction new generalizing pre old with
  | nil =>
    cases old with
    | nil => rfl
    | cons o os => simp at h
  | cons b bs ih =>
    cases old with
    | nil => simp at h
    | cons o os =>
      rw [write_bytes_nat_cons]
      have h1 : (pre ++ o :: os ++ post).set pre.length b = (pre ++ [b]) ++ os ++ post := by
        have := set_at_length pre (os ++ post) o b
        simp [this]
      rw [h1]
      have h2 := ih (pre ++ [b]) os (by simpa using h)
      simp only [List.length_append, List.length_singleton] at h2
      rw [h2]
      simp

theorem bytes_to_hex_loop_eq (bs pre mid post : List Nat) (b : Nat)
    (h : mid.length = 2 * (bs.length + 1) + 1) :
    bytes_to_hex_loop (b :: bs) pre.length (pre ++ mid ++ post) =
      pre ++ (hex_text (b :: bs) ++ [0]) ++ post := by
  induction bs generalizing pre mid b with
  | nil =>
    simp only [bytes_to_hex_loop, snprintf_02x, hex_text]
    rw [write_bytes_at_length pre mid _ post (by simpa using h)]
    simp
  | cons b1 bs ih =>
    rw [bytes_to_hex_loop, snprintf_02x]
    obtain ⟨m0, m1, m2, mid1, rfl⟩ : ∃ m0 m1 m2 mid1, mid = m0 :: m1 :: m2 :: mid1 := by
      match mid, h with
      | m0 :: m1 :: m2 :: mid1, _ => exact ⟨m0, m1, m2, mid1, rfl⟩
      | [], h => simp at h
      | [_], h => simp at h
      | [_, _], h => simp at h
    have hw := write_bytes_at_length pre [m0, m1, m2] [hex_char (b % 256 / 16), hex_char (b % 256 % 16), 0]
      (mid1 ++ post) rfl
    have e1 : pre ++ m0 :: m1 :: m2 :: mid1 ++ post = pre ++ [m0, m1, m2] ++ (mid1 ++ post) := by simp
    rw [e1, hw]
    have e2 : pre ++ [hex_char (b % 256 / 16), hex_char (b % 256 % 16), 0] ++ (mid1 ++ post) =
        (pre ++ [hex_char (b % 256 / 16), hex_char (b % 256 % 16)]) ++ (0 :: mid1) ++ post := by simp
    have e3 : pre.length + 2 = (pre ++ [hex_char (b % 256 / 16), hex_char (b % 256 % 16)]).length := by simp
    rw [e2, e3, ih _ (0 :: mid1) b1 (by simp at h ⊢; omega)]
    simp [hex_text]

theorem char_val_of_lt (cs : Bool) (b : Nat) (h : b < 128) : char_val cs b = b := by
  unfold char_val
  have : ¬ (128 ≤ b) := by omega
  simp [this]

theorem bytes_from_hex_loop_pair (cs : Bool) (a b : Nat) (rest : List Nat) (k : Nat)
    (bin : List Nat) (ha : is_lower_hex a = true) (hb : is_lower_hex b = true) :
    bytes_from_hex_loop cs (a :: b :: rest) (2 * k) 0 bin =
      bytes_from_hex_loop cs rest (2 * (k + 1)) 0
        (bin.set k (lower_hex_val a * 16 + lower_hex_val b)) := by
  simp only [is_lower_hex, Bool.or_eq_true, Bool.and_eq_true, decide_eq_true_eq] at ha hb
  have ha1 : hex_digit_val cs a = (lower_hex_val a : Int) := by
    unfold hex_digit_val lower_hex_val
    rw [char_val_of_lt cs a (by omega)]
    simp only
    split_ifs <;> omega
  have hb1 : hex_digit_val cs b = (lower_hex_val b : Int) := by
    unfold hex_digit_val lower_hex_val
    rw [char_val_of_lt cs b (by omega)]
    simp only
    split_ifs <;> omega
  have hva : lower_hex_val a < 16 := by unfold lower_hex_val; split_ifs <;> omega
  have hvb : lower_hex_val b < 16 := by unfold lower_hex_val; split_ifs <;> omega
  rw [bytes_from_hex_loop, if_neg (by omega), bytes_from_hex_loop, if_pos (by omega), ha1, hb1]
  have e1 : (((0 : Nat) : Int) + (lower_hex_val a : Int)) % 2 ^ 64 = (lower_hex_val a : Int) := by
    omega
  rw [e1, Int.toNat_ofNat]
  have e2 : lower_hex_val a * 16 % 2 ^ 64 = lower_hex_val a * 16 := by omega
  rw [e2]
  have e3 : ((((lower_hex_val a * 16 : Nat) : Int) + (lower_hex_val b : Int)) % 2 ^ 64).toNat % 256
      = lower_hex_val a * 16 + lower_hex_val b := by omega
  rw [e3]
  have e4 : (2 * k + 1) / 2 = k := by omega
  have e5 : 2 * k + 1 + 1 = 2 * (k + 1) := by ring
  rw [e4, e5]

theorem bytes_from_hex_loop_eq (cs : Bool) (mid h pre post : List Nat)
    (hlen : h.length = 2 * mid.length) (hh : ∀ c ∈ h, is_lower_hex c = true) :
    bytes_from_hex_loop cs h (2 * pre.length) 0 (pre ++ mid ++ post) =
      pre ++ hex_pairs h ++ post := by
  induction mid generalizing h pre with
  | nil =>
    have : h = [] := List.length_eq_zero.mp (by simpa using hlen)
    subst this
    simp [bytes_from_hex_loop, hex_pairs]
  | cons m mid ih =>
    obtain ⟨a, b, rest, rfl⟩ : ∃ a b rest, h = a :: b :: rest := by
      match h, hlen with
      | a :: b :: rest, _ => exact ⟨a, b, rest, rfl⟩
      | [], hl => simp at hl
      | [_], hl => simp at hl; omega
    rw [bytes_from_hex_loop_pair cs a b rest pre.length _ (hh a (by simp)) (hh b (by simp))]
    have h1 : (pre ++ m :: mid ++ post).set pre.length (lower_hex_val a * 16 + lower_hex_val b) =
        (pre ++ [lower_hex_val a * 16 + lower_hex_val b]) ++ mid ++ post := by
      have := set_at_length pre (mid ++ post) m (lower_hex_val a * 16 + lower_hex_val b)
      simp [this]
    have h2 : pre.length + 1 = (pre ++ [lower_hex_val a * 16 + lower_hex_val b]).length := by simp
    rw [h1, h2, ih rest _ (by simp at hlen ⊢; omega) (fun c hc => hh c (by simp [hc]))]
    simp [hex_pairs]

theorem lower_hex_val_hex_char (d : Nat) (h : d < 16) : lower_hex_val (hex_char d) = d := by
  unfold lower_hex_val hex_char
  split_ifs <;> omega

theorem hex_char_lower_hex_val (c : Nat) (h : is_lower_hex c = true) :
    hex_char (lower_hex_val c) = c ∧ lower_hex_val c < 16 := by
  simp only [is_lower_hex, Bool.or_eq_true, Bool.and_eq_true, decide_eq_true_eq] at h
  unfold lower_hex_val hex_char
  split_ifs <;> omega

theorem is_lower_hex_hex_char (d : Nat) (h : d < 16) : is_lower_hex (hex_char d) = true := by
  simp only [is_lower_hex, Bool.or_eq_true, Bool.and_eq_true, decide_eq_true_eq]
  unfold hex_char
  split_ifs <;> omega

theorem hex_text_length (bs : List Nat) : (hex_text bs).length = 2 * bs.length := by
  induction bs with
  | nil => rfl
  | cons b bs ih => simp [hex_text, ih]; omega

theorem hex_text_lower (bs : List Nat) : ∀ c ∈ hex_text bs, is_lower_hex c = true := by
  induction bs with
  | nil => simp [hex_text]
  | cons b bs ih =>
    intro c hc
    simp only [hex_text, List.mem_cons] at hc
    rcases hc with rfl | rfl | hc
    · exact is_lower_hex_hex_char _ (by omega)
    · exact is_lower_hex_hex_char _ (by omega)
    · exact ih c hc

theorem hex_pairs_hex_text (bs : List Nat) (hb : ∀ x ∈ bs, x < 256) :
    hex_pairs (hex_text bs) = bs := by
  induction bs with
  | nil => rfl
  | cons b bs ih =>
    have hlt : b < 256 := hb b (by simp)
    simp only [hex_text, hex_pairs]
    rw [lower_hex_val_hex_char _ (by omega), lower_hex_val_hex_char _ (by omega),
      ih (fun x hx => hb x (by simp [hx]))]
    congr 1
    omega

theorem hex_pairs_length (n : Nat) (h : List Nat) (hlen : h.length = 2 * n) :
    (hex_pairs h).length = n := by
  induction n generalizing h with
  | zero =>
    have : h = [] := List.length_eq_zero.mp (by simpa using hlen)
    subst this
    rfl
  | succ n ih =>
    match h, hlen with
    | a :: b :: rest, hl =>
      simp only [hex_pairs, List.length_cons]
      rw [ih rest (by simp at hl; omega)]
    | [], hl => simp at hl
    | [_], hl => simp at hl; omega

theorem hex_text_hex_pairs (n : Nat) (h : List Nat) (hlen : h.length = 2 * n)
    (hh : ∀ c ∈ h, is_lower_hex c = true) : hex_text (hex_pairs h) = h := by
  induction n generalizing h with
  | zero =>
    have : h = [] := List.length_eq_zero.mp (by simpa using hlen)
    subst this
    rfl
  | succ n ih =>
    match h, hlen, hh with
    | a :: b :: rest, hl, hh =>
      have ha := hex_char_lower_hex_val a (hh a (by simp))
      have hb := hex_char_lower_hex_val b (hh b (by simp))
      simp only [hex_pairs, hex_text]
      rw [ih rest (by simp at hl; omega) (fun c hc => hh c (by simp [hc]))]
      have e1 : (lower_hex_val a * 16 + lower_hex_val b) % 256 / 16 = lower_hex_val a := by omega
      have e2 : (lower_hex_val a * 16 + lower_hex_val b) % 256 % 16 = lower_hex_val b := by omega
      rw [e1, e2, ha.1, hb.1]
    | [], hl, _ => simp at hl
    | [_], hl, _ => simp at hl; omega

theorem cstr_at_append_zero (h tail : List Nat) (hnz : ∀ c ∈ h, c ≠ 0) :
    cstr_at (h ++ 0 :: tail) 0 = h := by
  unfold cstr_at
  rw [List.drop_zero, List.takeWhile_append_of_pos (by simpa using hnz)]
  simp

theorem bytes_from_hex_eq (cs : Bool) (n : Nat) (h rest bin : List Nat)
    (hlen : h.length = 2 * n) (hh : ∀ c ∈ h, is_lower_hex c = true) (hbin : n ≤ bin.length) :
    bytes_from_hex cs bin (h ++ rest) (2 * n) = hex_pairs h ++ bin.drop n := by
  unfold bytes_from_hex
  rw [← hlen, List.take_left]
  have h1 := bytes_from_hex_loop_eq cs (bin.take n) h [] (bin.drop n)
    (by rw [List.length_take]; omega) hh
  simpa using h1

theorem bytes_to_hex_eq (n : Nat) (b rest hexbuf : List Nat) (hlen : b.length = n + 1)
    (hbuf : 2 * (n + 1) + 1 ≤ hexbuf.length) :
    bytes_to_hex hexbuf (b ++ rest) (n + 1) =
      hex_text b ++ 0 :: hexbuf.drop (2 * (n + 1) + 1) := by
  unfold bytes_to_hex
  rw [← hlen, List.take_left]
  match b, hlen with
  | b0 :: bs, hl =>
    have h1 := bytes_to_hex_loop_eq bs [] (hexbuf.take (2 * (bs.length + 1) + 1))
      (hexbuf.drop (2 * (bs.length + 1) + 1)) b0
      (by rw [List.length_take]; simp at hl; omega)
    simp only [List.length_nil, List.nil_append, List.take_append_drop] at h1
    rw [h1]
    simp at hl
    simp [hl]

/-- C7: for every text `h` of 40 characters `0-9a-f` (followed by anything),
`bytes_from_hex( bin, h, 40 )` followed by `bytes_to_hex( hexbuf, bin, 20 )`
leaves `h` and a terminating NUL at the start of `hexbuf`, so the C string
returned is `h`. -/
theorem bytes_to_hex_of_bytes_from_hex (char_signed : Bool) (h rest bin hexbuf : List Nat)
    (hlen : h.length = 40) (hh : ∀ c ∈ h, is_lower_hex c = true)
    (hbin : 20 ≤ bin.length) (hbuf : 41 ≤ hexbuf.length) :
    bytes_to_hex hexbuf (bytes_from_hex char_signed bin (h ++ rest) 40) 20 =
        h ++ 0 :: hexbuf.drop 41 ∧
      cstr_at (bytes_to_hex hexbuf (bytes_from_hex char_signed bin (h ++ rest) 40) 20) 0 = h := by
  have h1 := bytes_from_hex_eq char_signed 20 h rest bin hlen hh hbin
  have h2 := bytes_to_hex_eq 19 (hex_pairs h) (bin.drop 20) hexbuf
    (hex_pairs_length 20 h hlen) hbuf
  have h3 := hex_text_hex_pairs 20 h hlen hh
  norm_num at h1 h2
  rw [h1, h2, h3]
  refine ⟨rfl, cstr_at_append_zero h _ ?_⟩
  intro c hc h0
  have := hh c hc
  rw [h0] at this
  exact absurd this (by decide)

/-- The round trip above at the text `0123456789abcdef0123456789abcdef01234567`. -/
theorem bytes_to_hex_of_bytes_from_hex_witness :
    (bytes "0123456789abcdef0123456789abcdef01234567").length = 40 ∧
      cstr_at (bytes_to_hex (List.replicate 41 7)
        (bytes_from_hex true (List.replicate 20 7)
          (bytes "0123456789abcdef0123456789abcdef01234567" ++ [0]) 40) 20) 0 =
        bytes "0123456789abcdef0123456789abcdef01234567" :=
  ⟨by decide, (bytes_to_hex_of_bytes_from_hex true
    (bytes "0123456789abcdef0123456789abcdef01234567") [0] (List.replicate 20 7)
    (List.replicate 41 7) (by decide) (by decide) (by decide) (by decide)).2⟩

/-- C8: for every 20 byte string `b`, `bytes_to_hex( hexbuf, b, 20 )` followed
by `bytes_from_hex( bin, hexbuf, 40 )` stores `b` in `bin`, and the C string
that `bytes_to_hex` returns has 40 characters, all of them in `0-9a-f`. -/
theorem bytes_from_hex_of_bytes_to_hex (char_signed : Bool) (b bin hexbuf : List Nat)
    (hlen : b.length = 20) (hb : ∀ x ∈ b, x < 256)
    (hbin : 20 ≤ bin.length) (hbuf : 41 ≤ hexbuf.length) :
    bytes_from_hex char_signed bin (bytes_to_hex hexbuf b 20) 40 = b ++ bin.drop 20 ∧
      (cstr_at (bytes_to_hex hexbuf b 20) 0).length = 40 ∧
      ∀ c ∈ cstr_at (bytes_to_hex hexbuf b 20) 0, is_lower_hex c = true := by
  have h1 := bytes_to_hex_eq 19 b [] hexbuf hlen hbuf
  norm_num at h1
  have hl : (hex_text b).length = 2 * 20 := by rw [hex_text_length, hlen]
  have hnz : ∀ c ∈ hex_text b, c ≠ 0 := by
    intro c hc h0
    have := hex_text_lower b c hc
    rw [h0] at this
    exact absurd this (by decide)
  have h2 := bytes_from_hex_eq char_signed 20 (hex_text b) (0 :: hexbuf.drop 41) bin hl
    (hex_text_lower b) hbin
  norm_num at h2
  rw [h1, h2, hex_pairs_hex_text b hb, cstr_at_append_zero _ _ hnz]
  exact ⟨rfl, by rw [hex_text_length, hlen], hex_text_lower b⟩

/-- The round trip above at the bytes `0, 1, ..., 19`. -/
theorem bytes_from_hex_of_bytes_to_hex_witness :
    (List.range 20).length = 20 ∧
      bytes_from_hex true (List.replicate 20 7)
        (bytes_to_hex (List.replicate 41 7) (List.range 20) 20) 40 = List.range 20 :=
  ⟨by decide, by
    have h := (bytes_from_hex_of_bytes_to_hex true (List.range 20) (List.replicate 20 7)
      (List.replicate 41 7) (by decide) (by decide) (by decide) (by decide)).1
    rw [h]
    decide⟩

/-! ## `query_sanitize` -/

theorem set_at_length_eq {α : Type} (pre rest : List α) (x v : α) (n : Nat)
    (h : pre.length = n) : (pre ++ x :: rest).set n v = pre ++ v :: rest := by
  subst h
  exact set_at_length pre rest x v

theorem to_byte_tolower (cs : Bool) (b : Nat) (h : b < 256) :
    to_byte (tolower (char_val cs b)) = ascii_lower b := by
  have hc : char_val cs b = (b : Int) ∨ (128 ≤ b ∧ char_val cs b = (b : Int) - 256) := by
    unfold char_val
    by_cases h128 : 128 ≤ b
    · cases cs
      · left; simp
      · right; simp [h128]
    · left; simp [h128]
  unfold to_byte tolower ascii_lower
  rcases hc with hc | ⟨h128, hc⟩
  · rw [hc]
    split_ifs <;> omega
  · rw [hc, if_neg (by omega), if_neg (by omega)]
    omega

theorem is_suffix_iff (str suffix : List Nat) : is_suffix str suffix ≠ 0 ↔ suffix <:+ str := by
  unfold is_suffix
  simp only [List.take_length]
  by_cases hlen : suffix.length > str.length
  · rw [if_pos hlen]
    simp only [ne_eq, not_true_eq_false, false_iff]
    intro hs
    have := hs.length_le
    omega
  · rw [if_neg hlen, List.suffix_iff_eq_drop]
    have ht : ((str.drop (str.length - suffix.length)).take suffix.length) =
        str.drop (str.length - suffix.length) := by
      apply List.take_of_length_le
      rw [List.length_drop]
      omega
    rw [ht]
    constructor
    · intro h
      by_contra hne
      rw [if_neg (fun e => hne e.symm)] at h
      exact h rfl
    · intro h
      rw [if_pos h.symm]
      decide

theorem foldl_set_range (f : Nat → Nat) (query buf : List Nat) (n : Nat)
    (hq : n ≤ query.length) (hb : n ≤ buf.length) :
    (List.range n).foldl (fun b i => b.set i (f (query.getD i 0))) buf =
      (query.take n).map f ++ buf.drop n := by
  induction n with
  | zero => simp
  | succ n ih =>
    rw [List.range_succ, List.foldl_append, ih (by omega) (by omega)]
    simp only [List.foldl_cons, List.foldl_nil]
    have hn : n < query.length := by omega
    have hd : buf.drop n = buf[n] :: buf.drop (n + 1) := List.drop_eq_getElem_cons (by omega)
    have hl : ((query.take n).map f).length = n := by
      rw [List.length_map, List.length_take]; omega
    rw [hd]
    rw [set_at_length_eq _ _ _ _ n hl, List.take_succ (l := query),
      List.getD_eq_getElem _ _ hn, List.getElem?_eq_getElem hn]
    simp only [Option.toList, List.map_append, List.map_cons, List.map_nil, List.append_assoc,
      List.singleton_append]

theorem query_sanitize_len (cs : Bool) (tld buf query : List Nat) (buflen len : Nat)
    (hq : ∀ c ∈ query, c < 256)
    (hlen : (if is_suffix query tld ≠ 0 then query.length - tld.length else query.length) = len)
    (hbuf : buf.length = buflen) (hfit : len + 2 ≤ buflen) :
    query_sanitize cs tld buf buflen query =
      (0, (query.take len).map ascii_lower ++ 0 :: buf.drop (len + 1)) := by
  unfold query_sanitize
  simp only
  rw [hlen, if_neg (by omega)]
  have hle : len ≤ query.length := by rw [← hlen]; split_ifs <;> omega
  have hf : (fun (b : List Nat) (i : Nat) =>
      b.set i (to_byte (tolower (char_val cs (query.getD i 0))))) =
      (fun b i => b.set i (ascii_lower (query.getD i 0))) := by
    funext b i
    by_cases hi : i < query.length
    · rw [to_byte_tolower cs _ (by rw [List.getD_eq_getElem _ _ hi]; exact hq _ (List.getElem_mem _))]
    · rw [List.getD_eq_default _ _ (by omega), to_byte_tolower cs 0 (by norm_num)]
  rw [hf, foldl_set_range ascii_lower query buf len hle (by omega)]
  have hd : buf.drop len = buf[len] :: buf.drop (len + 1) := List.drop_eq_getElem_cons (by omega)
  have hl : ((query.take len).map ascii_lower).length = len := by
    rw [List.length_map, List.length_take]; omega
  rw [hd, set_at_length_eq _ _ _ _ len hl]

/-- C9: for every query `q`, suffix `s` and buffer of at least `|q| + 2` bytes,
`query_sanitize` applied to `q ++ s` returns 0 and leaves the ASCII
lower-casing of `q` and a terminating NUL at the start of the buffer, the
rest of the buffer unchanged; the suffix is stripped exactly when the query
ends with the very bytes of `s`. -/
theorem query_sanitize_with_suffix (char_signed : Bool) (s q buf : List Nat) (buflen : Nat)
    (hq : ∀ c ∈ q, c < 256) (hs : ∀ c ∈ s, c < 256)
    (hbuf : buf.length = buflen) (hfit : q.length + 2 ≤ buflen) :
    query_sanitize char_signed s buf buflen (q ++ s) =
        (0, q.map ascii_lower ++ 0 :: buf.drop (q.length + 1)) ∧
      ∀ query : List Nat, is_suffix query s ≠ 0 ↔ s <:+ query := by
  refine ⟨?_, fun query => is_suffix_iff query s⟩
  have hsuf : is_suffix (q ++ s) s ≠ 0 := (is_suffix_iff (q ++ s) s).mpr (List.suffix_append q s)
  have h := query_sanitize_len char_signed s buf (q ++ s) buflen q.length
    (by
      intro c hc
      rcases List.mem_append.mp hc with h | h
      · exact hq c h
      · exact hs c h)
    (by rw [if_pos hsuf, List.length_append]; omega) hbuf hfit
  rw [h, List.take_left]

/-- The statement above at `Foo.P2P` followed by the suffix `.p2p`. -/
theorem query_sanitize_with_suffix_witness :
    (bytes "Foo.P2P").length + 2 ≤ 256 ∧
      query_sanitize true (bytes ".p2p") (List.replicate 256 7) 256 (bytes "Foo.P2P" ++ bytes ".p2p") =
        (0, bytes "foo.p2p" ++ 0 :: List.replicate 248 7) := by
  refine ⟨by decide!, ?_⟩
  have h := (query_sanitize_with_suffix true (bytes ".p2p") (bytes "Foo.P2P") (List.replicate 256 7)
    256 (by decide!) (by decide!) (by decide!) (by decide!)).1
  rw [h]
  decide!

/-- C10, counterexample: with the configured suffix `.p2p` and a 256 byte
buffer, `query_sanitize` applied to `foo.p2p` returns 0 and writes `foo`,
while the ASCII lower-casing of `foo.p2p` is `foo.p2p`. -/
theorem query_sanitize_strips_suffix_of_query :
    (query_sanitize true (bytes ".p2p") (List.replicate 256 7) 256 (bytes "foo.p2p")).1 = 0 ∧
      cstr_at (query_sanitize true (bytes ".p2p") (List.replicate 256 7) 256
        (bytes "foo.p2p")).2 0 = bytes "foo" ∧
      (bytes "foo.p2p").map ascii_lower = bytes "foo.p2p" ∧
      bytes "foo" ≠ bytes "foo.p2p" := by
  refine ⟨?_, ?_, ?_, ?_⟩ <;> decide!

/-- C10, amended: for every query `q` that does not end with the configured
suffix `s` (or when `s` is empty) and every buffer of at least `|q| + 2`
bytes, `query_sanitize` applied to `q` returns 0 and leaves the ASCII
lower-casing of `q` and a terminating NUL at the start of the buffer. -/
theorem query_sanitize_without_suffix (char_signed : Bool) (s q buf : List Nat) (buflen : Nat)
    (hq : ∀ c ∈ q, c < 256) (hbuf : buf.length = buflen) (hfit : q.length + 2 ≤ buflen)
    (hns : ¬ (s ≠ [] ∧ s <:+ q)) :
    query_sanitize char_signed s buf buflen q =
      (0, q.map ascii_lower ++ 0 :: buf.drop (q.length + 1)) := by
  have hlen : (if is_suffix q s ≠ 0 then q.length - s.length else q.length) = q.length := by
    split_ifs with h
    · have hsuf := (is_suffix_iff q s).mp h
      have he : s = [] := by
        by_contra hne
        exact hns ⟨hne, hsuf⟩
      rw [he]
      rfl
    · rfl
  have h := query_sanitize_len char_signed s buf q buflen q.length hq hlen hbuf hfit
  rw [h, List.take_length]

/-- The statement above at `Foo.P2P`, which does not end with the suffix `.p2p`. -/
theorem query_sanitize_without_suffix_witness :
    (bytes "Foo.P2P").length + 2 ≤ 256 ∧ ¬ (bytes ".p2p" ≠ [] ∧ bytes ".p2p" <:+ bytes "Foo.P2P") ∧
      query_sanitize true (bytes ".p2p") (List.replicate 256 7) 256 (bytes "Foo.P2P") =
        (0, bytes "foo.p2p" ++ 0 :: List.replicate 248 7) := by
  have hns : ¬ (bytes ".p2p" ≠ [] ∧ bytes ".p2p" <:+ bytes "Foo.P2P") := by
    rw [← is_suffix_iff]
    decide!
  refine ⟨by decide!, hns, ?_⟩
  have h := query_sanitize_without_suffix true (bytes ".p2p") (bytes "Foo.P2P")
    (List.replicate 256 7) 256 (by decide!) (by decide!) (by decide!) hns
  rw [h]
  decide!

/-! ## `cmd_to_args` -/

/-- C6, evaluated on the code: where plain `char` is signed, the request
`lookup` followed by a blank and the bytes `c3 a4 . p 2 p` is split into
`lookup` and `.p2p`, the two bytes above `0x7f` being zeroed out like white
space, although the runs of bytes above `0x20` are `lookup` and the whole
second word; where `char` is unsigned the second argument is the whole word. -/
theorem cmd_to_args_high_bytes :
    args_strings (cmd_to_args true (bytes "lookup " ++ [0xc3, 0xa4] ++ bytes ".p2p" ++ [0]) 32) =
        [bytes "lookup", bytes ".p2p"] ∧
      (cmd_to_args true (bytes "lookup " ++ [0xc3, 0xa4] ++ bytes ".p2p" ++ [0]) 32).argc = 2 ∧
      args_strings (cmd_to_args false (bytes "lookup " ++ [0xc3, 0xa4] ++ bytes ".p2p" ++ [0]) 32) =
        [bytes "lookup", [0xc3, 0xa4] ++ bytes ".p2p"] := by
  refine ⟨?_, ?_, ?_⟩ <;> decide!

theorem token_runs_split (sep : Nat → Bool) (s cur : List Nat) :
    token_runs sep s cur =
      (if (cur ++ s.takeWhile (fun b => !sep b)).isEmpty then []
        else [cur ++ s.takeWhile (fun b => !sep b)]) ++
      token_runs sep (s.dropWhile (fun b => !sep b)).tail [] := by
  induction s generalizing cur with
  | nil => simp [token_runs]
  | cons b bs ih =>
    by_cases hb : sep b = true
    · simp [token_runs, hb, List.takeWhile_cons, List.dropWhile_cons]
      by_cases hc : cur = [] <;> simp [hc]
    · simp only [Bool.not_eq_true] at hb
      simp only [token_runs, hb, List.takeWhile_cons, List.dropWhile_cons, Bool.not_false,
        if_true, Bool.false_eq_true, if_false]
      rw [ih (cur ++ [b])]
      simp

theorem takeWhile_zero_sep (cs : Bool) (l rest : List Nat) (hnz : ∀ b ∈ l, b ≠ 0) :
    (l.map (zero_sep cs) ++ 0 :: rest).takeWhile (fun b => b != 0) =
      l.takeWhile (fun b => !is_separator cs b) := by
  induction l with
  | nil => simp
  | cons b bs ih =>
    have hb : b ≠ 0 := hnz b (by simp)
    have ih1 := ih (fun x hx => hnz x (by simp [hx]))
    by_cases hs : is_separator cs b = true
    · simp [zero_sep, hs, List.takeWhile_cons]
    · simp only [Bool.not_eq_true] at hs
      simp only [List.map_cons, List.cons_append, zero_sep, hs, Bool.false_eq_true, if_false,
        List.takeWhile_cons, bne_iff_ne, ne_eq, hb, not_false_eq_true, decide_True, Bool.not_false,
        if_true]
      rw [ih1]

theorem cmd_record_done (str : List Nat) (len : Nat) (max_argv : Int) (fuel i : Nat)
    (argv : List Nat) (hi : len < i) : cmd_record str len max_argv fuel i argv = argv := by
  cases fuel with
  | zero => rfl
  | succ f => rw [cmd_record, if_neg (by omega)]

theorem getD_at_length (pre rest : List Nat) (x : Nat) (i : Nat) (hi : i = pre.length) :
    (pre ++ x :: rest).getD i 0 = x := by
  subst hi
  induction pre with
  | nil => rfl
  | cons p ps ih => simpa using ih

theorem cstr_at_at_length (pre tail : List Nat) (i : Nat) (hi : i = pre.length) :
    cstr_at (pre ++ tail) i = tail.takeWhile (fun b => b != 0) := by
  subst hi
  simp [cstr_at]

theorem cmd_record_eq (cs : Bool) (max_argv : Int) (rest : List Nat) (fuel : Nat) :
    ∀ (pre l argv str1 : List Nat) (len i : Nat),
      str1 = pre ++ (l.map (zero_sep cs) ++ 0 :: rest) → len = pre.length + l.length →
      i = pre.length → (∀ b ∈ l, b ≠ 0) → l.length + 1 ≤ fuel →
      (cmd_record str1 len max_argv fuel i argv).map (cstr_at str1) =
        argv.map (cstr_at str1) ++
          (token_runs (is_separator cs) l []).take (max_argv - 1 - argv.length).toNat := by
  induction fuel with
  | zero => intro pre l argv str1 len i _ _ _ _ hf; omega
  | succ fuel ih =>
    intro pre l argv str1 len i hstr hlen hi hnz hf
    rw [cmd_record, if_pos (by omega)]
    cases l with
    | nil =>
      have h0 : str1.getD i 0 = 0 := by
        rw [hstr]
        exact getD_at_length pre rest 0 i hi
      have hl0 : ([] : List Nat).length = 0 := rfl
      rw [if_pos h0, cmd_record_done _ _ _ _ _ _ (by omega)]
      simp [token_runs]
    | cons b bs =>
      have hb : b ≠ 0 := hnz b (by simp)
      have hget : str1.getD i 0 = zero_sep cs b := by
        rw [hstr]
        exact getD_at_length pre _ _ i hi
      by_cases hs : is_separator cs b = true
      · have hz : zero_sep cs b = 0 := by simp [zero_sep, hs]
        rw [if_pos (by rw [hget, hz])]
        have hl1 : (b :: bs).length = bs.length + 1 := List.length_cons b bs
        have hpl : (pre ++ [0]).length = pre.length + 1 := by simp
        have h1 := ih (pre ++ [0]) bs argv str1 len (i + 1)
          (by rw [hstr]; simp [hz]) (by rw [hpl]; omega) (by rw [hpl]; omega)
          (fun x hx => hnz x (by simp [hx])) (by omega)
        rw [h1]
        simp [token_runs, hs]
      · simp only [Bool.not_eq_true] at hs
        have hz : zero_sep cs b = b := by simp [zero_sep, hs]
        rw [if_neg (by rw [hget, hz]; exact hb)]
        by_cases hfull : (argv.length : Int) ≥ max_argv - 1
        · rw [if_pos hfull]
          have : (max_argv - 1 - (argv.length : Int)).toNat = 0 := by omega
          rw [this]
          simp
        · rw [if_neg hfull]
          have hcs : cstr_at str1 i = (b :: bs).takeWhile (fun x => !is_separator cs x) := by
            rw [hstr, cstr_at_at_length pre _ i hi]
            exact takeWhile_zero_sep cs (b :: bs) rest hnz
          have hsplit := token_runs_split (is_separator cs) (b :: bs) []
          have htd := List.takeWhile_append_dropWhile (fun x => !is_separator cs x) (b :: bs)
          generalize ht : (b :: bs).takeWhile (fun x => !is_separator cs x) = t at hcs hsplit htd
          generalize hd : (b :: bs).dropWhile (fun x => !is_separator cs x) = d at hsplit htd
          have htne : t ≠ [] := by
            rw [← ht]
            simp [List.takeWhile_cons, hs]
          have hn : (max_argv - 1 - (argv.length : Int)).toNat =
              (max_argv - 1 - ((argv ++ [i]).length : Int)).toNat + 1 := by
            simp only [List.length_append, List.length_singleton, Nat.cast_add, Nat.cast_one]
            omega
          have hlen2 : (b :: bs).length = t.length + d.length := by
            rw [← htd, List.length_append]
          rw [strlen_at, hcs, hsplit, hn]
          simp only [List.nil_append, List.isEmpty_eq_true, htne, if_false, List.singleton_append,
            List.take_succ_cons]
          cases d with
          | nil =>
            have hlen3 : (b :: bs).length = t.length := hlen2.trans (Nat.add_zero _)
            rw [cmd_record_done _ _ _ _ _ _ (by omega)]
            simp [hcs, token_runs]
          | cons s d1 =>
            have hsep : is_separator cs s = true := by
              have := List.head_dropWhile_not (fun x => !is_separator cs x) (b :: bs)
                (by rw [hd]; simp)
              simpa [hd] using this
            have hz2 : zero_sep cs s = 0 := by simp [zero_sep, hsep]
            have hmapt : t.map (zero_sep cs) ++ 0 :: (d1.map (zero_sep cs) ++ 0 :: rest) =
                (b :: bs).map (zero_sep cs) ++ 0 :: rest := by
              rw [← htd]
              simp [hz2]
            have hlen3 : (b :: bs).length = t.length + d1.length + 1 := by
              rw [hlen2, List.length_cons]
              omega
            have hpl : (pre ++ t.map (zero_sep cs) ++ [0]).length = pre.length + t.length + 1 := by
              simp only [List.length_append, List.length_map, List.length_singleton]
            have h1 := ih (pre ++ t.map (zero_sep cs) ++ [0]) d1 (argv ++ [i]) str1 len
              (i + t.length + 1)
              (by rw [hstr, ← hmapt]; simp)
              (by rw [hpl]; omega) (by rw [hpl]; omega)
              (fun x hx => hnz x (by rw [← htd]; simp [hx]))
              (by omega)
            rw [h1]
            simp [hcs]

theorem zero_out_range (cs : Bool) (str : List Nat) (n : Nat) (hn : n ≤ str.length) :
    (List.range n).foldl
        (fun s i => if char_val cs (s.getD i 0) ≤ 32 then s.set i 0 else s) str =
      (str.take n).map (zero_sep cs) ++ str.drop n := by
  induction n with
  | zero => simp
  | succ n ih =>
    have hlt : n < str.length := by omega
    rw [List.range_succ, List.foldl_append, ih (by omega)]
    simp only [List.foldl_cons, List.foldl_nil]
    have hd : str.drop n = str[n] :: str.drop (n + 1) := List.drop_eq_getElem_cons hlt
    have hl : ((str.take n).map (zero_sep cs)).length = n := by
      rw [List.length_map, List.length_take]; omega
    rw [hd, getD_at_length _ _ _ n hl.symm, List.take_succ, List.getElem?_eq_getElem hlt]
    simp only [Option.toList, List.map_append, List.map_cons, List.map_nil, List.append_assoc,
      List.singleton_append]
    by_cases hc : char_val cs str[n] ≤ 32
    · have hz : zero_sep cs str[n] = 0 := by simp [zero_sep, is_separator, hc]
      rw [if_pos hc, set_at_length_eq _ _ _ _ n hl, hz]
    · have hz : zero_sep cs str[n] = str[n] := by simp [zero_sep, is_separator, hc]
      rw [if_neg hc, hz]

theorem zero_sep_zero (cs : Bool) : zero_sep cs 0 = 0 := by
  cases cs <;> rfl

theorem cmd_zero_out_eq (cs : Bool) (content rest : List Nat) :
    cmd_zero_out cs (content ++ 0 :: rest) content.length =
      content.map (zero_sep cs) ++ 0 :: rest := by
  unfold cmd_zero_out
  rw [zero_out_range cs _ _ (by simp)]
  have h1 : (content ++ 0 :: rest).take (content.length + 1) = content ++ [0] := by
    have := List.take_left (content ++ [0]) rest
    simp at this
    exact this
  have h2 : (content ++ 0 :: rest).drop (content.length + 1) = rest := by
    have := List.drop_left (content ++ [0]) rest
    rw [List.length_append, List.length_singleton, List.append_assoc] at this
    exact this
  rw [h1, h2]
  simp [zero_sep_zero]

/-- What `cmd_to_args` computes on every platform: the arguments are the
maximal non-empty runs of bytes that the first loop does not zero out, in
input order, truncated to the first `max_argv - 1`; `argc` is their number and
`argv[argc]` is NULL. -/
theorem cmd_to_args_eq (cs : Bool) (content rest : List Nat) (max_argv : Int)
    (hnz : ∀ b ∈ content, b ≠ 0) :
    args_strings (cmd_to_args cs (content ++ 0 :: rest) max_argv) =
        (token_runs (is_separator cs) content []).take (max_argv - 1).toNat ∧
      (cmd_to_args cs (content ++ 0 :: rest) max_argv).argc =
        (args_strings (cmd_to_args cs (content ++ 0 :: rest) max_argv)).length ∧
      (cmd_to_args cs (content ++ 0 :: rest) max_argv).argv.get?
        (cmd_to_args cs (content ++ 0 :: rest) max_argv).argc.toNat = some none := by
  have hlen : strlen_at (content ++ 0 :: rest) 0 = content.length := by
    rw [strlen_at, cstr_at_append_zero content rest hnz]
  have hrec := cmd_record_eq cs max_argv rest (content.length + 1) [] content []
    (content.map (zero_sep cs) ++ 0 :: rest) content.length 0 rfl (by simp) rfl hnz (le_refl _)
  simp only [List.map_nil, List.nil_append, List.length_nil, Nat.cast_zero, sub_zero] at hrec
  have hargs : ∀ (offs : List Nat) (str1 : List Nat),
      args_strings ⟨str1, offs.length, offs.map some ++ [none]⟩ = offs.map (cstr_at str1) := by
    intro offs str1
    unfold args_strings
    simp only [List.filterMap_append, List.filterMap_map]
    have hm : ((fun p : Option Nat => p.map (cstr_at str1)) ∘ some) = some ∘ cstr_at str1 := by
      funext x
      rfl
    rw [hm, List.filterMap_eq_map]
    simp
  unfold cmd_to_args
  simp only [hlen, cmd_zero_out_eq]
  rw [hargs, hrec]
  refine ⟨rfl, ?_, ?_⟩
  · rw [← hrec, List.length_map]
  · rw [Int.toNat_ofNat, List.get?_eq_getElem?, List.getElem?_append_right (by simp)]
    simp

theorem token_runs_congr (sep1 sep2 : Nat → Bool) (s cur : List Nat)
    (h : ∀ b ∈ s, sep1 b = sep2 b) : token_runs sep1 s cur = token_runs sep2 s cur := by
  induction s generalizing cur with
  | nil => rfl
  | cons b bs ih =>
    have hb := h b (by simp)
    have ih1 := fun cur => ih cur (fun x hx => h x (by simp [hx]))
    simp only [token_runs, hb, ih1]

theorem is_separator_eq (cs : Bool) (b : Nat) (h : cs = false ∨ b < 128) :
    is_separator cs b = decide (b ≤ 32) := by
  unfold is_separator char_val
  rcases h with h | h
  · subst h
    simp
  · have : ¬ (128 ≤ b) := by omega
    simp [this]

/-- Where `cmd_to_args` meets its specification: for a request whose bytes
before the first NUL are `content`, all below `0x80` (or on a platform with
unsigned `char`), `cmd_to_args` with `max_argv = 32` yields as `argv[0 .. argc)`
the maximal non-empty runs of bytes above `0x20`, in input order, truncated
to the first 31, with `argc ≤ 31` and `argv[argc]` NULL. -/
theorem cmd_to_args_tokens (cs : Bool) (content rest : List Nat)
    (hnz : ∀ b ∈ content, b ≠ 0) (h7 : cs = false ∨ ∀ b ∈ content, b < 128) :
    args_strings (cmd_to_args cs (content ++ 0 :: rest) 32) =
        (runs_above_space content).take 31 ∧
      (cmd_to_args cs (content ++ 0 :: rest) 32).argc =
        (args_strings (cmd_to_args cs (content ++ 0 :: rest) 32)).length ∧
      (cmd_to_args cs (content ++ 0 :: rest) 32).argc ≤ 31 ∧
      (cmd_to_args cs (content ++ 0 :: rest) 32).argv.get?
        (cmd_to_args cs (content ++ 0 :: rest) 32).argc.toNat = some none := by
  obtain ⟨h1, h2, h3⟩ := cmd_to_args_eq cs content rest 32 hnz
  have hc : token_runs (is_separator cs) content [] = runs_above_space content := by
    unfold runs_above_space
    apply token_runs_congr
    intro b hb
    apply is_separator_eq
    rcases h7 with h | h
    · exact Or.inl h
    · exact Or.inr (h b hb)
  have h31 : ((32 : Int) - 1).toNat = 31 := by decide
  rw [hc, h31] at h1
  refine ⟨h1, h2, ?_, h3⟩
  rw [h2, h1, List.length_take]
  have : min 31 (runs_above_space content).length ≤ 31 := Nat.min_le_left _ _
  exact_mod_cast this

/-- The statement above at a request of 33 words `ab`: 31 arguments. -/
theorem cmd_to_args_tokens_witness :
    (∀ b ∈ (List.replicate 33 (bytes "ab ")).flatten, b ≠ 0) ∧
      args_strings (cmd_to_args true ((List.replicate 33 (bytes "ab ")).flatten ++ 0 :: []) 32) =
        List.replicate 31 (bytes "ab") ∧
      (cmd_to_args true ((List.replicate 33 (bytes "ab ")).flatten ++ 0 :: []) 32).argc = 31 := by
  have hnz : ∀ b ∈ (List.replicate 33 (bytes "ab ")).flatten, b ≠ 0 := by decide!
  obtain ⟨h1, h2, -, -⟩ := cmd_to_args_tokens true (List.replicate 33 (bytes "ab ")).flatten []
    hnz (Or.inr (by decide!))
  refine ⟨hnz, ?_, ?_⟩
  · rw [h1]
    decide!
  · rw [h2, h1]
    decide!

/-! ## `query_sanitize`: the size check -/

/-- The return value of `query_sanitize`: 1 exactly when the sanitized length
plus one is at least `buflen`, 0 otherwise. -/
theorem query_sanitize_rc (cs : Bool) (tld buf query : List Nat) (buflen : Nat) :
    (query_sanitize cs tld buf buflen query).1 =
      if (if is_suffix query tld ≠ 0 then query.length - tld.length else query.length) + 1 ≥ buflen
      then 1 else 0 := by
  unfold query_sanitize
  simp only
  split_ifs <;> rfl

/-- C11, evaluated on the code: with the suffix `.p2p` and a buffer of 4
bytes, `query_sanitize` returns 1 and leaves the buffer alone for the queries
`abc` and `abc.p2p`, although the sanitized text `abc` and its terminator are
4 bytes; with 5 bytes it returns 0. -/
theorem query_sanitize_exact_fit :
    query_sanitize true (bytes ".p2p") (List.replicate 4 7) 4 (bytes "abc") =
        (1, List.replicate 4 7) ∧
      query_sanitize true (bytes ".p2p") (List.replicate 4 7) 4 (bytes "abc.p2p") =
        (1, List.replicate 4 7) ∧
      query_sanitize true (bytes ".p2p") (List.replicate 5 7) 5 (bytes "abc") =
        (0, bytes "abc" ++ [0, 7]) := by
  refine ⟨?_, ?_, ?_⟩ <;> decide!

/-! ## `addr_parse_full`: the split into address and port -/

theorem strchr_append (pre post : List Nat) (c : Nat) (h : c ∉ pre) :
    strchr (pre ++ c :: post) c = some pre.length := by
  unfold strchr
  have hi : (pre ++ c :: post).indexOf c = pre.length := by
    rw [List.indexOf_append_of_not_mem h, List.indexOf_cons_self]
    rfl
  rw [hi, if_pos (by simp)]

theorem strrchr_append (pre post : List Nat) (c : Nat) (h : c ∉ post) :
    strrchr (pre ++ c :: post) c = some pre.length := by
  unfold strrchr
  have hr : (pre ++ c :: post).reverse = post.reverse ++ c :: pre.reverse := by simp
  have hi : (pre ++ c :: post).reverse.indexOf c = post.length := by
    rw [hr, List.indexOf_append_of_not_mem (by simpa using h), List.indexOf_cons_self]
    simp
  rw [hi, if_pos (by simp; omega)]
  congr 1
  simp

theorem strrchr_none (s : List Nat) (c : Nat) (h : c ∉ s) : strrchr s c = none := by
  unfold strrchr
  have hi : s.reverse.indexOf c = s.length := by
    have := (List.indexOf_eq_length (a := c) (l := s.reverse)).mpr (by simpa using h)
    simpa using this
  rw [hi, if_neg (by omega)]

theorem takeWhile_zeros (s : List Nat) (k : Nat) (hs : ∀ c ∈ s, c ≠ 0) :
    (s ++ List.replicate k 0).takeWhile (fun b => b != 0) = s := by
  rw [List.takeWhile_append_of_pos (by simpa using hs)]
  cases k with
  | zero => simp
  | succ k => simp [List.replicate_succ]

theorem takeWhile_zero (s tail : List Nat) (hs : ∀ c ∈ s, c ≠ 0) :
    (s ++ 0 :: tail).takeWhile (fun b => b != 0) = s := by
  rw [List.takeWhile_append_of_pos (by simpa using hs)]
  simp

/-- The split of `[a]:p`. -/
theorem addr_split_bracket_port (a p dflt : List Nat) (ha0 : ∀ c ∈ a, c ≠ 0)
    (hp0 : ∀ c ∈ p, c ≠ 0) (hlen : a.length + p.length + 3 < 255) (hp : 93 ∉ p) :
    addr_split (91 :: (a ++ 93 :: 58 :: p)) dflt = some (a, p) := by
  unfold addr_split
  have hl : (91 :: (a ++ 93 :: 58 :: p)).length = a.length + p.length + 3 := by
    simp only [List.length_cons, List.length_append]; omega
  simp only [hl]
  rw [if_neg (by omega)]
  have hr : strrchr (91 :: (a ++ 93 :: 58 :: p)) 93 = some (a.length + 1) :=
    strrchr_append (91 :: a) (58 :: p) 93 (by simp [hp])
  simp only [List.cons_append, List.getD_cons_zero, if_true, hr]
  generalize hz : List.replicate (256 - (a.length + p.length + 3)) 0 = zeros
  have e1 : (91 :: (a ++ 93 :: 58 :: p ++ zeros)) = (91 :: a) ++ 93 :: (58 :: (p ++ zeros)) := by
    simp
  rw [e1, set_at_length_eq (91 :: a) _ 93 0 (a.length + 1) (by simp)]
  have e2 : (91 :: a) ++ 0 :: 58 :: (p ++ zeros) = ((91 :: a) ++ [0]) ++ 58 :: (p ++ zeros) := by
    simp
  have hg : ((91 :: a) ++ 0 :: 58 :: (p ++ zeros)).getD (a.length + 1 + 1) 0 = 58 := by
    rw [e2]
    exact getD_at_length _ _ _ _ (by simp)
  have hc1 : cstr_at ((91 :: a) ++ 0 :: 58 :: (p ++ zeros)) 1 = a := by
    have := cstr_at_at_length [91] (a ++ 0 :: 58 :: (p ++ zeros)) 1 rfl
    rw [takeWhile_zero a _ ha0] at this
    exact this
  have hc2 : cstr_at ((91 :: a) ++ 0 :: 58 :: (p ++ zeros)) (a.length + 1 + 2) = p := by
    have e3 : (91 :: a) ++ 0 :: 58 :: (p ++ zeros) = ((91 :: a) ++ [0, 58]) ++ (p ++ zeros) := by
      simp
    rw [e3, cstr_at_at_length _ _ _ (by simp), ← hz]
    exact takeWhile_zeros p _ hp0
  rw [hg, hc1, hc2]
  simp

/-- The split of `[a]`. -/
theorem addr_split_bracket (a dflt : List Nat) (ha0 : ∀ c ∈ a, c ≠ 0)
    (hlen : a.length + 2 < 255) :
    addr_split (91 :: (a ++ [93])) dflt = some (a, dflt) := by
  unfold addr_split
  have hl : (91 :: (a ++ [93])).length = a.length + 2 := by
    simp only [List.length_cons, List.length_append, List.length_nil]
  simp only [hl]
  rw [if_neg (by omega)]
  have hr : strrchr (91 :: (a ++ [93])) 93 = some (a.length + 1) :=
    strrchr_append (91 :: a) [] 93 (by simp)
  simp only [List.cons_append, List.getD_cons_zero, if_true, hr]
  obtain ⟨k, hk⟩ : ∃ k, 256 - (a.length + 2) = k + 1 := ⟨253 - a.length, by omega⟩
  rw [hk, List.replicate_succ]
  have e1 : (91 :: (a ++ [93] ++ 0 :: List.replicate k 0)) =
      (91 :: a) ++ 93 :: (0 :: List.replicate k 0) := by
    simp
  rw [e1, set_at_length_eq (91 :: a) _ 93 0 (a.length + 1) (by simp)]
  have e2 : (91 :: a) ++ 0 :: 0 :: List.replicate k 0 =
      ((91 :: a) ++ [0]) ++ 0 :: List.replicate k 0 := by
    simp
  have hg : ((91 :: a) ++ 0 :: 0 :: List.replicate k 0).getD (a.length + 1 + 1) 0 = 0 := by
    rw [e2]
    exact getD_at_length _ _ _ _ (by simp)
  have hc1 : cstr_at ((91 :: a) ++ 0 :: 0 :: List.replicate k 0) 1 = a := by
    have := cstr_at_at_length [91] (a ++ 0 :: 0 :: List.replicate k 0) 1 rfl
    rw [takeWhile_zero a _ ha0] at this
    exact this
  rw [hg, hc1]
  simp

/-- The split of `h:p`. -/
theorem addr_split_host_port (h p dflt : List Nat) (hh0 : ∀ c ∈ h, c ≠ 0)
    (hp0 : ∀ c ∈ p, c ≠ 0) (hlen : h.length + p.length + 1 < 255)
    (hb : h.head? ≠ some 91) (hh : 58 ∉ h) (hp : 58 ∉ p) :
    addr_split (h ++ 58 :: p) dflt = some (h, p) := by
  unfold addr_split
  have hl : (h ++ 58 :: p).length = h.length + p.length + 1 := by
    simp only [List.length_cons, List.length_append]; omega
  simp only [hl]
  rw [if_neg (by omega)]
  have hr : strrchr (h ++ 58 :: p) 58 = some h.length := strrchr_append h p 58 hp
  have hc : strchr (h ++ 58 :: p) 58 = some h.length := strchr_append h p 58 hh
  generalize hz : List.replicate (256 - (h.length + p.length + 1)) 0 = zeros
  have h0 : (h ++ 58 :: p ++ zeros).getD 0 0 ≠ 91 := by
    cases h with
    | nil => simp
    | cons x xs =>
      simp only [List.cons_append, List.getD_cons_zero]
      intro hx
      exact hb (by simp [hx])
  rw [if_neg h0, hr, hc]
  simp only [Option.isSome_some, and_self, if_true]
  have e1 : h ++ 58 :: p ++ zeros = h ++ 58 :: (p ++ zeros) := by simp
  rw [e1, set_at_length_eq h _ 58 0 h.length rfl]
  have hc1 : cstr_at (h ++ 0 :: (p ++ zeros)) 0 = h := by
    have := cstr_at_at_length [] (h ++ 0 :: (p ++ zeros)) 0 rfl
    rw [takeWhile_zero h _ hh0] at this
    exact this
  have hc2 : cstr_at (h ++ 0 :: (p ++ zeros)) (h.length + 1) = p := by
    have e3 : h ++ 0 :: (p ++ zeros) = (h ++ [0]) ++ (p ++ zeros) := by simp
    rw [e3, cstr_at_at_length _ _ _ (by simp), ← hz]
    exact takeWhile_zeros p _ hp0
  rw [hc1, hc2]

/-- The split of a bare `h`. -/
theorem addr_split_host (h dflt : List Nat) (hh0 : ∀ c ∈ h, c ≠ 0)
    (hlen : h.length < 255) (hb : h.head? ≠ some 91) (hh : 58 ∉ h) :
    addr_split h dflt = some (h, dflt) := by
  unfold addr_split
  simp only
  rw [if_neg (by omega)]
  have hr : strrchr h 58 = none := strrchr_none h 58 hh
  obtain ⟨k, hk⟩ : ∃ k, 256 - h.length = k + 1 := ⟨255 - h.length, by omega⟩
  have h0 : (h ++ List.replicate (256 - h.length) 0).getD 0 0 ≠ 91 := by
    rw [hk, List.replicate_succ]
    cases h with
    | nil => simp
    | cons x xs =>
      simp only [List.cons_append, List.getD_cons_zero]
      intro hx
      exact hb (by simp [hx])
  rw [if_neg h0, hr]
  simp only [Option.isSome_none, Bool.false_eq_true, false_and, if_false]
  have hc1 : cstr_at (h ++ List.replicate (256 - h.length) 0) 0 = h := by
    have := cstr_at_at_length [] (h ++ List.replicate (256 - h.length) 0) 0 rfl
    rw [takeWhile_zeros h _ hh0] at this
    exact this
  rw [hc1]

theorem digitChar_digit (k : Nat) (h : k < 10) :
    48 ≤ (Nat.digitChar k).toNat ∧ (Nat.digitChar k).toNat ≤ 57 := by
  interval_cases k <;> decide

theorem toDigitsCore_digits (fuel n : Nat) (ds : List Char)
    (hds : ∀ c ∈ ds, 48 ≤ c.toNat ∧ c.toNat ≤ 57) :
    ∀ c ∈ Nat.toDigitsCore 10 fuel n ds, 48 ≤ c.toNat ∧ c.toNat ≤ 57 := by
  induction fuel generalizing n ds with
  | zero => simpa [Nat.toDigitsCore] using hds
  | succ fuel ih =>
    have hd := digitChar_digit (n % 10) (Nat.mod_lt _ (by norm_num))
    have hcons : ∀ c ∈ Nat.digitChar (n % 10) :: ds, 48 ≤ c.toNat ∧ c.toNat ≤ 57 := by
      intro c hc
      rcases List.mem_cons.mp hc with h | h
      · rw [h]; exact hd
      · exact hds c h
    unfold Nat.toDigitsCore
    simp only
    split_ifs
    · exact hcons
    · exact ih _ _ hcons

/-- The text of `%hu` consists of decimal digits. -/
theorem fmt_u_digits (n : Nat) : ∀ c ∈ fmt_u n, 48 ≤ c ∧ c ≤ 57 := by
  intro c hc
  unfold fmt_u at hc
  obtain ⟨ch, hch, rfl⟩ := List.mem_map.mp hc
  exact toDigitsCore_digits _ _ [] (by simp) ch hch

/-- C12: for every input shorter than 255 bytes, `addr_parse_full` calls the
resolver (through `addr_parse`) with the address `a` and port `p` for `[a]:p`
(no `]` in `p`), with `a` and the default port for `[a]`, with `a` and `p`
for `a:p` and with `a` and the default port for a bare `a` (`a` not starting
with `[`, no `:` in `a`, `p`).  Hence the texts that `str_addr` prints for an
IPv4 and an IPv6 address split back into the address text and the port, and
`[::1]:7000`, `127.0.0.1:7000`, `[::1]`, `127.0.0.1` with the default port
`7000` all give the port string `7000`. -/
theorem addr_parse_full_split
    (getaddrinfo : List Nat → Option (List Nat) → Int → Option (List addrinfo))
    (fuel : Nat) (addr : IP) (dflt : List Nat) (af : Int) (a p : List Nat)
    (ha0 : ∀ c ∈ a, c ≠ 0) (hp0 : ∀ c ∈ p, c ≠ 0) :
    (a.length + p.length + 3 < 255 → 93 ∉ p →
      addr_parse_full getaddrinfo fuel addr (bytes "[" ++ a ++ bytes "]:" ++ p) dflt af =
        addr_parse getaddrinfo fuel addr a (some p) af) ∧
    (a.length + 2 < 255 →
      addr_parse_full getaddrinfo fuel addr (bytes "[" ++ a ++ bytes "]") dflt af =
        addr_parse getaddrinfo fuel addr a (some dflt) af) ∧
    (a.length + p.length + 1 < 255 → a.head? ≠ some 91 → 58 ∉ a → 58 ∉ p →
      addr_parse_full getaddrinfo fuel addr (a ++ bytes ":" ++ p) dflt af =
        addr_parse getaddrinfo fuel addr a (some p) af) ∧
    (a.length < 255 → a.head? ≠ some 91 → 58 ∉ a →
      addr_parse_full getaddrinfo fuel addr a dflt af =
        addr_parse getaddrinfo fuel addr a (some dflt) af) ∧
    (∀ (inet_ntop : Int → List Nat → List Nat) (ip : IP), inet_ntop AF_INET ip.addr = a →
      ip.ss_family = AF_INET → (str_addr inet_ntop ip).length < 255 →
      a.head? ≠ some 91 → 58 ∉ a →
      addr_parse_full getaddrinfo fuel addr (str_addr inet_ntop ip) dflt af =
        addr_parse getaddrinfo fuel addr a (some (fmt_u (ip.port % 65536))) af) ∧
    (∀ (inet_ntop : Int → List Nat → List Nat) (ip : IP), inet_ntop AF_INET6 ip.addr = a →
      ip.ss_family = AF_INET6 → (str_addr inet_ntop ip).length < 255 →
      addr_parse_full getaddrinfo fuel addr (str_addr inet_ntop ip) dflt af =
        addr_parse getaddrinfo fuel addr a (some (fmt_u (ip.port % 65536))) af) ∧
    addr_split (bytes "[::1]:7000") (bytes "7000") = some (bytes "::1", bytes "7000") ∧
    addr_split (bytes "127.0.0.1:7000") (bytes "7000") = some (bytes "127.0.0.1", bytes "7000") ∧
    addr_split (bytes "[::1]") (bytes "7000") = some (bytes "::1", bytes "7000") ∧
    addr_split (bytes "127.0.0.1") (bytes "7000") = some (bytes "127.0.0.1", bytes "7000") := by
  have hb1 : bytes "[" = [91] := by decide
  have hb2 : bytes "]:" = [93, 58] := by decide
  have hb3 : bytes "]" = [93] := by decide
  have hb4 : bytes ":" = [58] := by decide
  have hpf : ∀ full x y, addr_split full dflt = some (x, y) →
      addr_parse_full getaddrinfo fuel addr full dflt af =
        addr_parse getaddrinfo fuel addr x (some y) af := by
    intro full x y h
    unfold addr_parse_full
    rw [h]
  have hdig0 : ∀ n, ∀ c ∈ fmt_u n, c ≠ 0 := fun n c hc => by
    have := fmt_u_digits n c hc; omega
  have c1 : a.length + p.length + 3 < 255 → 93 ∉ p →
      addr_split (bytes "[" ++ a ++ bytes "]:" ++ p) dflt = some (a, p) := by
    intro hl h2
    have := addr_split_bracket_port a p dflt ha0 hp0 hl h2
    rw [hb1, hb2]
    simpa using this
  have c3 : a.length + p.length + 1 < 255 → a.head? ≠ some 91 → 58 ∉ a → 58 ∉ p →
      addr_split (a ++ bytes ":" ++ p) dflt = some (a, p) := by
    intro hl h1 h2 h3
    have := addr_split_host_port a p dflt ha0 hp0 hl h1 h2 h3
    rw [hb4]
    simpa using this
  refine ⟨fun hl h2 => hpf _ _ _ (c1 hl h2), ?_, fun hl h1 h2 h3 => hpf _ _ _ (c3 hl h1 h2 h3),
    fun hl h1 h2 => hpf _ _ _ (addr_split_host a dflt ha0 hl h1 h2), ?_, ?_,
    by decide!, by decide!, by decide!, by decide!⟩
  · intro hl
    have := addr_split_bracket a dflt ha0 hl
    rw [hb1, hb3]
    exact hpf _ _ _ (by simpa using this)
  · intro inet_ntop ip hn hf hl h1 h2
    have hne : ip.ss_family ≠ AF_INET6 := by rw [hf]; decide
    have hs : str_addr inet_ntop ip = a ++ bytes ":" ++ fmt_u (ip.port % 65536) := by
      unfold str_addr
      rw [if_neg hne, if_pos hf, hn]
    rw [hs, hb4] at hl ⊢
    have h58 : 58 ∉ fmt_u (ip.port % 65536) := fun hc => by
      have := fmt_u_digits _ _ hc; omega
    have := addr_split_host_port a (fmt_u (ip.port % 65536)) dflt ha0 (hdig0 _)
      (by simp at hl; omega) h1 h2 h58
    exact hpf _ _ _ (by simpa using this)
  · intro inet_ntop ip hn hf hl
    have hs : str_addr inet_ntop ip =
        bytes "[" ++ a ++ bytes "]:" ++ fmt_u (ip.port % 65536) := by
      unfold str_addr
      rw [if_pos hf, hn]
    rw [hs, hb1, hb2] at hl ⊢
    have h93 : 93 ∉ fmt_u (ip.port % 65536) := fun hc => by
      have := fmt_u_digits _ _ hc; omega
    have := addr_split_bracket_port a (fmt_u (ip.port % 65536)) dflt ha0 (hdig0 _)
      (by simp at hl; omega) h93
    exact hpf _ _ _ (by simpa using this)

/-- The statement above at `[127.0.0.1]:7000` and `127.0.0.1:7000`, for a
resolver that knows the address `127.0.0.1` with port `7000` only. -/
theorem addr_parse_full_split_witness :
    addr_parse_full resolver_demo 1 IP_local (bytes "[127.0.0.1]:7000") (bytes "80") 0 =
        some (0, ⟨AF_INET, [127, 0, 0, 1], 7000⟩) ∧
      addr_parse_full resolver_demo 1 IP_local (bytes "127.0.0.1:7000") (bytes "80") 0 =
        some (0, ⟨AF_INET, [127, 0, 0, 1], 7000⟩) := by
  have h := addr_parse_full_split resolver_demo 1 IP_local (bytes "80") 0
    (bytes "127.0.0.1") (bytes "7000") (by decide) (by decide)
  have h1 := h.1 (by decide) (by decide)
  have h2 := h.2.2.1 (by decide) (by decide) (by decide) (by decide)
  have e1 : bytes "[" ++ bytes "127.0.0.1" ++ bytes "]:" ++ bytes "7000" =
      bytes "[127.0.0.1]:7000" := by decide
  have e2 : bytes "127.0.0.1" ++ bytes ":" ++ bytes "7000" = bytes "127.0.0.1:7000" := by decide
  rw [e1] at h1
  rw [e2] at h2
  rw [h1, h2]
  constructor <;> decide!

/-! ## The `lookup` and `list` commands -/

theorem cmd_exec_lookup_two (env : Env) (fuel : Nat) (r : reply_t) (query : List Nat) :
    cmd_exec env fuel r [bytes "lookup", query] = some (cmd_exec_lookup env r query) := by
  have h1 : bytes "lookup" ≠ bytes "import" := by decide
  simp [cmd_exec, h1]

/-- C17, counterexample: when the DHT lookup returns 0 and one address, the
`lookup` command returns 0 and replies with the address line, not with
"Search in progress." and the return value 1. -/
theorem lookup_rc_zero_with_results :
    (cmd_exec { env_demo with kad_lookup := fun _ _ => (0, [addr_long]) } 0 reply_zero
        [bytes "lookup", bytes "bar.p2p"]).map (fun e => (e.rc, reply_body e.r)) =
      some (0, bytes "[2001:1db8:1111:2222:3333:4444:5555:6666]:51413\n") ∧
    (cmd_remote_handler { env_demo with kad_lookup := fun _ _ => (0, [addr_long]) } true 0
        reply_zero (bytes "lookup bar.p2p")).map (fun y => y.map (fun t => t.sent)) =
      some (some (bytes "0[2001:1db8:1111:2222:3333:4444:5555:6666]:51413\n")) := by
  constructor <;> decide!

/-- C17, amended: for every result `(rc, num)` of the DHT lookup, the `lookup`
command returns 0 and appends the `num` address lines exactly when `rc` is not
negative and `num > 0`; otherwise it returns 1 and appends "Some error
occured." when `rc` is negative, "Search in progress." when `rc` is 0 and
"Search started." when `rc` is positive. -/
theorem lookup_reply (env : Env) (fuel : Nat) (r : reply_t) (query : List Nat) :
    ∃ e, cmd_exec env fuel r [bytes "lookup", query] = some e ∧
      e.calls = [Call.kad_lookup query] ∧
      (e.rc = if 0 ≤ (env.kad_lookup query 16).1 ∧ 0 < (env.kad_lookup query 16).2.length
        then 0 else 1) ∧
      e.r =
        if 0 ≤ (env.kad_lookup query 16).1 ∧ 0 < (env.kad_lookup query 16).2.length then
          r_print_addrs env r (env.kad_lookup query 16).2
        else if (env.kad_lookup query 16).1 < 0 then r_printf r (bytes "Some error occured.\n")
        else if (env.kad_lookup query 16).1 = 0 then r_printf r (bytes "Search in progress.\n")
        else r_printf r (bytes "Search started.\n") := by
  refine ⟨_, cmd_exec_lookup_two env fuel r query, ?_, ?_, ?_⟩ <;>
    · unfold cmd_exec_lookup
      simp only [ge_iff_le, gt_iff_lt]
      split_ifs <;> rfl

/-- The `list` command without the debug flag: the usage branch. -/
theorem cmd_exec_list_no_debug (env : Env) (fuel : Nat) (r : reply_t) (rest : List (List Nat))
    (hd : r.allow_debug = false) :
    cmd_exec env fuel r (bytes "list" :: rest) = some ⟨1, r_printf r cmd_usage, []⟩ := by
  have h1 : bytes "list" ≠ bytes "import" := by decide
  have h2 : bytes "list" ≠ bytes "lookup" := by decide
  have h3 : bytes "list" ≠ bytes "status" := by decide
  have h4 : bytes "list" ≠ bytes "announce" := by decide
  have h5 : bytes "list" ≠ bytes "blacklist" := by decide
  have h6 : bytes "list" ≠ bytes "export" := by decide
  have hu : (r_printf r cmd_usage).allow_debug = false := by
    unfold r_printf
    simp only
    split_ifs <;> exact hd
  simp [cmd_exec, cmd_exec_usage, h1, h2, h3, h4, h5, h6, hd, hu]

/-- The `list` command on a daemon: return value 1 and no call at all. -/
theorem cmd_exec_list_daemon (env : Env) (fuel : Nat) (r : reply_t) (rest : List (List Nat))
    (hdm : env.is_daemon = 1) :
    ∃ e, cmd_exec env fuel r (bytes "list" :: rest) = some e ∧ e.rc = 1 ∧ e.calls = [] := by
  have h1 : bytes "list" ≠ bytes "import" := by decide
  have h2 : bytes "list" ≠ bytes "lookup" := by decide
  have h3 : bytes "list" ≠ bytes "status" := by decide
  have h4 : bytes "list" ≠ bytes "announce" := by decide
  have h5 : bytes "list" ≠ bytes "blacklist" := by decide
  have h6 : bytes "list" ≠ bytes "export" := by decide
  by_cases hc : rest.length + 1 = 2 ∧ r.allow_debug = true
  · refine ⟨cmd_exec_list env r ((bytes "list" :: rest).getD 1 []), ?_, ?_, ?_⟩
    · simp [cmd_exec, h1, h2, h3, h4, h5, h6, hc.1, hc.2]
    · simp [cmd_exec_list, hdm]
    · simp [cmd_exec_list, hdm]
  · refine ⟨cmd_exec_usage env r, ?_, rfl, rfl⟩
    simp only [cmd_exec, List.length_cons, List.getD_cons_zero, h1, h2, h3, h4, h5, h6,
      false_and, and_false, if_false]
    rw [if_neg (by omega), if_neg (by intro h; exact hc ⟨h.1, h.2.2⟩)]


/-- C18: for every argument list whose first token is `list`: without the
debug flag `cmd_exec` returns 1, appends the usage text without the debug
usage line and makes no call, so no debug dumper is invoked; with the debug
flag on a node that runs as a daemon it returns 1 and makes no call either.
Over UDP `list skeys` is answered with the status byte `1` and the usage
text. -/
theorem list_refused (env : Env) (fuel : Nat) (r : reply_t) (rest : List (List Nat)) :
    (r.allow_debug = false →
      cmd_exec env fuel r (bytes "list" :: rest) = some ⟨1, r_printf r cmd_usage, []⟩) ∧
    (r.allow_debug = true → env.is_daemon = 1 →
      ∃ e, cmd_exec env fuel r (bytes "list" :: rest) = some e ∧ e.rc = 1 ∧ e.calls = []) ∧
    remote_view (cmd_remote_handler env_demo true 0 reply_zero (bytes "list skeys")) =
      some (some (1, bytes "1" ++ cmd_usage, [])) :=
  ⟨cmd_exec_list_no_debug env fuel r rest, fun _ hdm => cmd_exec_list_daemon env fuel r rest hdm,
    by decide!⟩

/-- The statement above at `list skeys`, for a reply without and with the
debug flag, the latter on a daemon. -/
theorem list_refused_witness :
    (cmd_exec env_demo 0 reply_zero [bytes "list", bytes "skeys"]).map
        (fun e => (e.rc, reply_body e.r, e.calls)) = some (1, cmd_usage, []) ∧
      (cmd_exec { env_demo with is_daemon := 1 } 0 { reply_zero with allow_debug := true }
        [bytes "list", bytes "skeys"]).map (fun e => (e.rc, e.calls)) = some (1, []) := by
  have h := list_refused env_demo 0 reply_zero [bytes "skeys"]
  have h2 := list_refused { env_demo with is_daemon := 1 } 0
    { reply_zero with allow_debug := true } [bytes "skeys"]
  constructor
  · rw [h.1 rfl]
    decide!
  · obtain ⟨e, he, hrc, hcalls⟩ := h2.2.1 rfl rfl
    rw [he]
    simp [hrc, hcalls]

/-! ## `forwardings.c`: the list -/

theorem forwardings_add_loop_none (es : List forwarding_t) (port lifetime : Int) :
    forwardings_add_loop es port lifetime = none ↔ ∀ e ∈ es, e.port ≠ port := by
  induction es with
  | nil => simp [forwardings_add_loop]
  | cons e es ih =>
    unfold forwardings_add_loop
    by_cases h : e.port = port
    · simp [h]
    · simp [h, ih]

theorem forwardings_add_loop_some (es l : List forwarding_t) (port lifetime : Int)
    (h : forwardings_add_loop es port lifetime = some l) :
    l.map (fun e => e.ptr) = es.map (fun e => e.ptr) ∧
      l.map (fun e => e.port) = es.map (fun e => e.port) ∧
      ((es.map (fun e => e.port)).Nodup → ∀ e ∈ l, e.port = port → e.lifetime = lifetime) := by
  induction es generalizing l with
  | nil => simp [forwardings_add_loop] at h
  | cons e es ih =>
    unfold forwardings_add_loop at h
    by_cases hp : e.port = port
    · rw [if_pos hp] at h
      cases h
      refine ⟨by simp, by simp, ?_⟩
      intro hnd x hx hxp
      rcases List.mem_cons.mp hx with hx | hx
      · rw [hx]
      · exfalso
        have hnot := (List.nodup_cons.mp hnd).1
        apply hnot
        show e.port ∈ _
        rw [hp, ← hxp]
        exact List.mem_map_of_mem (fun e => e.port) hx
    · rw [if_neg hp] at h
      cases hl : forwardings_add_loop es port lifetime with
      | none => rw [hl] at h; simp at h
      | some l1 =>
        rw [hl] at h
        simp only [Option.map_some', Option.some.injEq] at h
        subst h
        obtain ⟨h1, h2, h3⟩ := ih l1 hl
        refine ⟨by simp [h1], by simp [h2], ?_⟩
        intro hnd x hx hxp
        rcases List.mem_cons.mp hx with hx | hx
        · rw [hx] at hxp
          exact absurd hxp hp
        · exact h3 (List.nodup_cons.mp hnd).2 x hx hxp

theorem forwardings_remove_loop_sublist (es : List forwarding_t) (item : Nat) :
    (forwardings_remove_loop es item).Sublist es := by
  induction es with
  | nil => exact List.Sublist.slnil
  | cons e es ih =>
    unfold forwardings_remove_loop
    split_ifs
    · exact List.sublist_cons_self e es
    · exact ih.cons₂ e

theorem forwardings_remove_loop_mem (es : List forwarding_t) (item : Nat) (e : forwarding_t)
    (he : e ∈ es) (hne : e.ptr ≠ item) : e ∈ forwardings_remove_loop es item := by
  induction es with
  | nil => simp at he
  | cons x xs ih =>
    unfold forwardings_remove_loop
    rcases List.mem_cons.mp he with h | h
    · subst h
      rw [if_neg hne]
      exact List.mem_cons_self _ _
    · split_ifs
      · exact h
      · exact List.mem_cons_of_mem _ (ih h)

theorem forwardings_remove_loop_filter (es : List forwarding_t) (item : Nat)
    (hnd : (es.map (fun e => e.ptr)).Nodup) :
    forwardings_remove_loop es item = es.filter (fun e => e.ptr != item) := by
  induction es with
  | nil => rfl
  | cons x xs ih =>
    unfold forwardings_remove_loop
    have hx := List.nodup_cons.mp hnd
    by_cases h : x.ptr = item
    · rw [if_pos h]
      have hall : ∀ e ∈ xs, (e.ptr != item) = true := by
        intro e he
        simp only [bne_iff_ne, ne_eq]
        intro hc
        apply hx.1
        show x.ptr ∈ _
        rw [h, ← hc]
        exact List.mem_map_of_mem (fun e => e.ptr) he
      simp [List.filter_cons, h, List.filter_eq_self.mpr hall]
    · rw [if_neg h, ih hx.2]
      simp [List.filter_cons, h]

theorem set_refreshed_ptr (es : List forwarding_t) (item : Nat) (now : Int) :
    (set_refreshed es item now).map (fun e => e.ptr) = es.map (fun e => e.ptr) := by
  unfold set_refreshed
  rw [List.map_map]
  apply List.map_congr_left
  intro e _
  simp only [Function.comp]
  split_ifs <;> rfl

theorem set_refreshed_port (es : List forwarding_t) (item : Nat) (now : Int) :
    (set_refreshed es item now).map (fun e => e.port) = es.map (fun e => e.port) := by
  unfold set_refreshed
  rw [List.map_map]
  apply List.map_congr_left
  intro e _
  simp only [Function.comp]
  split_ifs <;> rfl

theorem mem_of_ptr_map {l1 l2 : List forwarding_t}
    (h : l1.map (fun e => e.ptr) = l2.map (fun e => e.ptr)) (p : Nat)
    (hp : ∃ e ∈ l2, e.ptr = p) : ∃ e ∈ l1, e.ptr = p := by
  obtain ⟨e, he, rfl⟩ := hp
  have : e.ptr ∈ l1.map (fun e => e.ptr) := by
    rw [h]
    exact List.mem_map_of_mem (fun e => e.ptr) he
  obtain ⟨x, hx, hxe⟩ := List.mem_map.mp this
  exact ⟨x, hx, hxe⟩

theorem fwd_inv_add (new : Nat) (f : forwardings_t) (port : Nat) (lifetime : Int)
    (hi : fwd_inv f) (hnew : ∀ e ∈ f.beg, e.ptr ≠ new) :
    fwd_inv (forwardings_add new f port lifetime) := by
  unfold forwardings_add
  split_ifs with h1
  · exact hi
  · cases hl : forwardings_add_loop f.beg port lifetime with
    | some l =>
      obtain ⟨h1, h2, -⟩ := forwardings_add_loop_some f.beg l port lifetime hl
      refine ⟨by simp only [h1]; exact hi.1, by simp only [h2]; exact hi.2.1, ?_⟩
      intro p hp
      exact mem_of_ptr_map h1 p (hi.2.2 p hp)
    | none =>
      have hnone := (forwardings_add_loop_none f.beg port lifetime).mp hl
      refine ⟨?_, ?_, ?_⟩
      · simp only [List.map_cons, List.nodup_cons]
        refine ⟨?_, hi.1⟩
        intro hc
        obtain ⟨e, he, hep⟩ := List.mem_map.mp hc
        exact hnew e he hep
      · simp only [List.map_cons, List.nodup_cons]
        refine ⟨?_, hi.2.1⟩
        intro hc
        obtain ⟨e, he, hep⟩ := List.mem_map.mp hc
        exact hnone e he hep
      · intro p hp
        obtain ⟨e, he, hep⟩ := hi.2.2 p hp
        exact ⟨e, List.mem_cons_of_mem _ he, hep⟩

theorem fwd_inv_remove (f : forwardings_t) (item : Nat) (hi : fwd_inv f) :
    fwd_inv (forwardings_remove f item) := by
  have hs := forwardings_remove_loop_sublist f.beg item
  refine ⟨hi.1.sublist (hs.map _), hi.2.1.sublist (hs.map _), ?_⟩
  intro p hp
  have hcur : (forwardings_remove f item).cur = if f.cur = some item then none else f.cur := rfl
  rw [hcur] at hp
  split_ifs at hp with hc
  obtain ⟨e, he, hep⟩ := hi.2.2 p hp
  refine ⟨e, forwardings_remove_loop_mem f.beg item e he ?_, hep⟩
  intro hitem
  apply hc
  rw [hp, ← hep, hitem]

theorem natpmp_block_forwardings (b : fwd_build) (t : tick_t) (natpmp : Bool)
    (f : forwardings_t) (item : forwarding_t) (lifespan : Int) :
    (natpmp_block b t natpmp f item lifespan).2.1 = f ∨
      (natpmp_block b t natpmp f item lifespan).2.1 = forwarding_done f item lifespan t.now := by
  unfold natpmp_block
  split_ifs
  · cases t.natpmp_rc <;> simp
  · exact Or.inl rfl
  · exact Or.inl rfl

theorem natpmp_block_continue (b : fwd_build) (t : tick_t) (natpmp : Bool)
    (f : forwardings_t) (item : forwarding_t) (lifespan : Int)
    (h : (natpmp_block b t natpmp f item lifespan).1 = false) :
    (natpmp_block b t natpmp f item lifespan).2.1 = f := by
  unfold natpmp_block at h ⊢
  split_ifs at h ⊢
  · cases hrc : t.natpmp_rc <;> simp [hrc] at h ⊢
  · rfl
  · rfl

theorem upnp_block_forwardings (b : fwd_build) (t : tick_t) (upnp : Bool)
    (f : forwardings_t) (item : forwarding_t) (lifespan : Int) :
    (upnp_block b t upnp f item lifespan).1 = f ∨
      (upnp_block b t upnp f item lifespan).1 = forwarding_done f item lifespan t.now := by
  unfold upnp_block
  split_ifs
  · cases t.upnp_rc <;> simp
  · exact Or.inl rfl
  · exact Or.inl rfl

theorem scan_start_sublist (now : Int) (f : forwardings_t) (start : List forwarding_t)
    (retry : Int) (h : scan_start now f = some (start, retry)) : start.Sublist f.beg := by
  unfold scan_start at h
  cases hc : f.cur with
  | none =>
    rw [hc] at h
    simp only at h
    split_ifs at h
    cases h
    exact List.Sublist.refl _
  | some p =>
    rw [hc] at h
    simp only [Option.some.injEq, Prod.mk.injEq] at h
    rw [← h.1]
    exact List.dropWhile_sublist _

/-- The list after `forwardings_handle`: unchanged, or with `retry` set and
`cur` cleared, or with `cur` at a due node of the list, that node possibly
removed or refreshed. -/
theorem forwardings_handle_cases (b : fwd_build) (t : tick_t) (s : fwd_state) :
    (forwardings_handle b t s).1.forwardings = s.forwardings ∨
      (∃ retry, (forwardings_handle b t s).1.forwardings =
        { s.forwardings with retry := retry, cur := none }) ∨
      ∃ retry item, item ∈ s.forwardings.beg ∧ forwarding_due t.now item = true ∧
        ((forwardings_handle b t s).1.forwardings =
            { s.forwardings with retry := retry, cur := some item.ptr } ∨
          (forwardings_handle b t s).1.forwardings =
            forwarding_done { s.forwardings with retry := retry, cur := some item.ptr } item
              (forwarding_lifespan t.now item) t.now) := by
  unfold forwardings_handle
  cases hs : scan_start t.now s.forwardings with
  | none => exact Or.inl rfl
  | some sr =>
    obtain ⟨start, retry⟩ := sr
    simp only
    cases hf : start.find? (forwarding_due t.now) with
    | none => exact Or.inr (Or.inl ⟨retry, rfl⟩)
    | some item =>
      have hmem : item ∈ s.forwardings.beg :=
        (scan_start_sublist t.now s.forwardings start retry hs).subset (List.mem_of_find?_eq_some hf)
      have hdue : forwarding_due t.now item = true := List.find?_some hf
      refine Or.inr (Or.inr ⟨retry, item, hmem, hdue, ?_⟩)
      simp only
      split_ifs with hn
      · simp only
        exact natpmp_block_forwardings b t s.natpmp _ item _
      · simp only
        rw [natpmp_block_continue b t s.natpmp _ item _ (by simpa using hn)]
        exact upnp_block_forwardings b t s.upnp _ item _

theorem fwd_inv_handle (b : fwd_build) (t : tick_t) (s : fwd_state)
    (hi : fwd_inv s.forwardings) : fwd_inv (forwardings_handle b t s).1.forwardings := by
  rcases forwardings_handle_cases b t s with h | ⟨retry, h⟩ | ⟨retry, item, hmem, -, h⟩
  · rw [h]; exact hi
  · rw [h]
    exact ⟨hi.1, hi.2.1, fun p hp => by simp at hp⟩
  · have h1 : fwd_inv { s.forwardings with retry := retry, cur := some item.ptr } := by
      refine ⟨hi.1, hi.2.1, ?_⟩
      intro p hp
      simp only [Option.some.injEq] at hp
      exact ⟨item, hmem, hp⟩
    rcases h with h | h
    · rw [h]; exact h1
    · rw [h]
      unfold forwarding_done
      split_ifs
      · exact fwd_inv_remove _ _ h1
      · refine ⟨?_, ?_, ?_⟩
        · simp only [set_refreshed_ptr]; exact h1.1
        · simp only [set_refreshed_port]; exact h1.2.1
        · intro p hp
          exact mem_of_ptr_map (set_refreshed_ptr _ _ _) p (h1.2.2 p hp)

/-- Every reachable state satisfies the invariant of the list. -/
theorem fwd_reachable_inv (b : fwd_build) (s : fwd_state) (h : fwd_reachable b s) :
    fwd_inv s.forwardings := by
  induction h with
  | init natpmp upnp =>
    exact ⟨List.nodup_nil, List.nodup_nil, fun p hp => by simp [forwardings_init] at hp⟩
  | add s new port lifetime _ hnew ih => exact fwd_inv_add new _ port lifetime ih hnew
  | remove s item _ ih => exact fwd_inv_remove _ item ih
  | handle s t _ ih => exact fwd_inv_handle b t s ih

theorem filter_port_length (l : List forwarding_t) (port : Int)
    (hnd : (l.map (fun e => e.port)).Nodup) (hmem : port ∈ l.map (fun e => e.port)) :
    (l.filter (fun e => decide (e.port = port))).length = 1 := by
  induction l with
  | nil => simp at hmem
  | cons x xs ih =>
    have hx := List.nodup_cons.mp hnd
    by_cases h : x.port = port
    · have hall : ∀ e ∈ xs, ¬ (decide (e.port = port) = true) := by
        intro e he hc
        apply hx.1
        show x.port ∈ _
        rw [h, ← of_decide_eq_true hc]
        exact List.mem_map_of_mem (fun e => e.port) he
      have hnil : xs.filter (fun e => decide (e.port = port)) = [] :=
        List.filter_eq_nil_iff.mpr hall
      simp [List.filter_cons, h, hnil]
    · have hm : port ∈ xs.map (fun e => e.port) := by
        rcases List.mem_cons.mp hmem with hc | hc
        · exact absurd hc.symm h
        · exact hc
      simp [List.filter_cons, h, ih hx.2 hm]

/-- Adding a port above 1 twice to a list with pairwise different ports. -/
theorem forwardings_add_twice_inv (f : forwardings_t) (new1 new2 port : Nat)
    (L L' : Int) (hp : 2 ≤ port) (hnd : (f.beg.map (fun e => e.port)).Nodup) :
    ((forwardings_add new2 (forwardings_add new1 f port L) port L').beg.filter
        (fun e => decide (e.port = (port : Int)))).length = 1 ∧
      ∀ e ∈ (forwardings_add new2 (forwardings_add new1 f port L) port L').beg,
        e.port = (port : Int) → e.lifetime = L' := by
  have hp1 : ¬ port ≤ 1 := by omega
  -- the list after the first call holds the port and has pairwise different ports
  have h1 : ((forwardings_add new1 f port L).beg.map (fun e => e.port)).Nodup ∧
      (port : Int) ∈ (forwardings_add new1 f port L).beg.map (fun e => e.port) := by
    unfold forwardings_add
    rw [if_neg hp1]
    cases hl : forwardings_add_loop f.beg port L with
    | some l =>
      obtain ⟨-, h2, -⟩ := forwardings_add_loop_some f.beg l port L hl
      simp only [h2]
      refine ⟨hnd, ?_⟩
      by_contra hc
      have : forwardings_add_loop f.beg port L = none :=
        (forwardings_add_loop_none f.beg port L).mpr (fun e he hep =>
          hc (by rw [← hep]; exact List.mem_map_of_mem (fun e => e.port) he))
      rw [this] at hl
      exact absurd hl (by simp)
    | none =>
      have hnone := (forwardings_add_loop_none f.beg port L).mp hl
      simp only [List.map_cons, List.nodup_cons, List.mem_cons, true_or, and_true]
      refine ⟨?_, hnd⟩
      intro hc
      obtain ⟨e, he, hep⟩ := List.mem_map.mp hc
      exact hnone e he hep
  generalize forwardings_add new1 f port L = f1 at h1
  unfold forwardings_add
  rw [if_neg hp1]
  cases hl : forwardings_add_loop f1.beg port L' with
  | none =>
    exfalso
    have hnone := (forwardings_add_loop_none f1.beg port L').mp hl
    obtain ⟨e, he, hep⟩ := List.mem_map.mp h1.2
    exact hnone e he hep
  | some l =>
    obtain ⟨-, h2, h3⟩ := forwardings_add_loop_some f1.beg l port L' hl
    simp only
    refine ⟨filter_port_length l port (by rw [h2]; exact h1.1) (by rw [h2]; exact h1.2), ?_⟩
    exact h3 h1.1

/-- C13: for every state reachable from the empty list, every port from 2 on
(a `USHORT`, so up to 65535) and lifetimes `L`, `L'`, after `forwardings_add( port, L )` followed by
`forwardings_add( port, L' )` the list holds exactly one entry with that port,
and its lifetime is `L'`. -/
theorem forwardings_add_twice (b : fwd_build) (s : fwd_state) (hr : fwd_reachable b s)
    (new1 new2 port : Nat) (L L' : Int) (hlo : 2 ≤ port) :
    ((forwardings_add new2 (forwardings_add new1 s.forwardings port L) port L').beg.filter
        (fun e => decide (e.port = (port : Int)))).length = 1 ∧
      ∀ e ∈ (forwardings_add new2 (forwardings_add new1 s.forwardings port L) port L').beg,
        e.port = (port : Int) → e.lifetime = L' :=
  forwardings_add_twice_inv s.forwardings new1 new2 port L L' hlo (fwd_reachable_inv b s hr).2.1

/-- The statement above at the state with port 5000 and at the new port 5001. -/
theorem forwardings_add_twice_witness :
    fwd_reachable ⟨true, true⟩ fwd_demo ∧
      ((forwardings_add 3 (forwardings_add 2 fwd_demo.forwardings 5001 100) 5001 200).beg.filter
          (fun e => decide (e.port = ((5001 : Nat) : Int)))).length = 1 ∧
      ∀ e ∈ (forwardings_add 3 (forwardings_add 2 fwd_demo.forwardings 5001 100) 5001 200).beg,
        e.port = ((5001 : Nat) : Int) → e.lifetime = 200 :=
  have hr : fwd_reachable ⟨true, true⟩ fwd_demo :=
    fwd_reachable.add ⟨forwardings_init, true, true⟩ 1 5000 LONG_MAX
      (fwd_reachable.init true true) (by simp [forwardings_init])
  ⟨hr, forwardings_add_twice ⟨true, true⟩ fwd_demo hr 2 3 5001 100 200 (by decide)⟩

/-- C15: in every state reachable from the empty list through
`forwardings_add`, `forwardings_remove` and `forwardings_handle`, `cur` is NULL
or the address of a node of the list, and `forwardings_remove` of the node
that `cur` refers to sets `cur` to NULL and takes the node out of the list. -/
theorem forwardings_cur_valid (b : fwd_build) (s : fwd_state) (hr : fwd_reachable b s) :
    (s.forwardings.cur = none ∨ ∃ e ∈ s.forwardings.beg, s.forwardings.cur = some e.ptr) ∧
      ∀ item, s.forwardings.cur = some item →
        (forwardings_remove s.forwardings item).cur = none ∧
        ∀ e ∈ (forwardings_remove s.forwardings item).beg, e.ptr ≠ item := by
  have hi := fwd_reachable_inv b s hr
  constructor
  · cases hc : s.forwardings.cur with
    | none => exact Or.inl rfl
    | some p =>
      obtain ⟨e, he, hep⟩ := hi.2.2 p hc
      exact Or.inr ⟨e, he, by rw [hep]⟩
  · intro item hc
    constructor
    · unfold forwardings_remove
      simp [hc]
    · intro e he
      have hf : (forwardings_remove s.forwardings item).beg =
          s.forwardings.beg.filter (fun e => e.ptr != item) :=
        forwardings_remove_loop_filter s.forwardings.beg item hi.1
      rw [hf] at he
      simpa using (List.mem_filter.mp he).2

/-- The statement above at the state reached by adding port 5000 and one tick
in which both back-ends ask for a retry: `cur` refers to the node. -/
theorem forwardings_cur_valid_witness :
    fwd_reachable ⟨true, true⟩ (forwardings_handle ⟨true, true⟩ tick_retry fwd_demo).1 ∧
      (forwardings_handle ⟨true, true⟩ tick_retry fwd_demo).1.forwardings.cur = some 1 ∧
      (forwardings_remove (forwardings_handle ⟨true, true⟩ tick_retry fwd_demo).1.forwardings
        1).cur = none := by
  have hr : fwd_reachable ⟨true, true⟩ (forwardings_handle ⟨true, true⟩ tick_retry fwd_demo).1 :=
    fwd_reachable.handle fwd_demo tick_retry
      (fwd_reachable.add ⟨forwardings_init, true, true⟩ 1 5000 LONG_MAX
        (fwd_reachable.init true true) (by simp [forwardings_init]))
  have hc : (forwardings_handle ⟨true, true⟩ tick_retry fwd_demo).1.forwardings.cur = some 1 := by
    decide
  exact ⟨hr, hc, ((forwardings_cur_valid ⟨true, true⟩ _ hr).2 1 hc).1⟩

/-! ## `forwardings.c`: one tick of `forwardings_handle` -/

/-- `forwardings_handle` when the scan selects the node `e`. -/
theorem forwardings_handle_selected (b : fwd_build) (t : tick_t) (s : fwd_state)
    (start : List forwarding_t) (retry : Int) (e : forwarding_t)
    (hs : scan_start t.now s.forwardings = some (start, retry))
    (hsel : start.find? (forwarding_due t.now) = some e) :
    forwardings_handle b t s =
      if (natpmp_block b t s.natpmp { s.forwardings with retry := retry, cur := some e.ptr } e
          (forwarding_lifespan t.now e)).1 then
        (⟨(natpmp_block b t s.natpmp { s.forwardings with retry := retry, cur := some e.ptr } e
            (forwarding_lifespan t.now e)).2.1,
          (natpmp_block b t s.natpmp { s.forwardings with retry := retry, cur := some e.ptr } e
            (forwarding_lifespan t.now e)).2.2.1, s.upnp⟩,
          (natpmp_block b t s.natpmp { s.forwardings with retry := retry, cur := some e.ptr } e
            (forwarding_lifespan t.now e)).2.2.2)
      else
        (⟨(upnp_block b t s.upnp
            (natpmp_block b t s.natpmp { s.forwardings with retry := retry, cur := some e.ptr } e
              (forwarding_lifespan t.now e)).2.1 e (forwarding_lifespan t.now e)).1,
          (natpmp_block b t s.natpmp { s.forwardings with retry := retry, cur := some e.ptr } e
            (forwarding_lifespan t.now e)).2.2.1,
          (upnp_block b t s.upnp
            (natpmp_block b t s.natpmp { s.forwardings with retry := retry, cur := some e.ptr } e
              (forwarding_lifespan t.now e)).2.1 e (forwarding_lifespan t.now e)).2.1⟩,
          (natpmp_block b t s.natpmp { s.forwardings with retry := retry, cur := some e.ptr } e
            (forwarding_lifespan t.now e)).2.2.2 ++
          (upnp_block b t s.upnp
            (natpmp_block b t s.natpmp { s.forwardings with retry := retry, cur := some e.ptr } e
              (forwarding_lifespan t.now e)).2.1 e (forwarding_lifespan t.now e)).2.2) := by
  unfold forwardings_handle
  rw [hs]
  simp only [hsel]

/-- `forwardings_handle` when the scan selects no node. -/
theorem forwardings_handle_idle (b : fwd_build) (t : tick_t) (s : fwd_state)
    (start : List forwarding_t) (retry : Int)
    (hs : scan_start t.now s.forwardings = some (start, retry))
    (hsel : start.find? (forwarding_due t.now) = none) :
    forwardings_handle b t s =
      ({ s with forwardings := { s.forwardings with retry := retry, cur := none } }, []) := by
  unfold forwardings_handle
  rw [hs]
  simp only [hsel]

/-- The scan test in plain arithmetic, for a stored instant in range. -/
theorem forwarding_due_iff (now : Int) (e : forwarding_t)
    (h : LONG_MIN ≤ e.refreshed + 1800 ∧ e.refreshed + 1800 ≤ LONG_MAX) :
    forwarding_due now e = true ↔ e.refreshed + 1800 < now := by
  unfold forwarding_due
  rw [decide_eq_true_iff]
  have : long_wrap (e.refreshed + 30 * 60) = e.refreshed + 1800 := by
    have h30 : e.refreshed + 30 * 60 = e.refreshed + 1800 := by norm_num
    rw [h30]
    exact long_wrap_eq _ h.1 h.2
  rw [this]

/-- The scan finds the first node that is due. -/
theorem find_due (now : Int) (pre post : List forwarding_t) (e : forwarding_t)
    (hpre : ∀ x ∈ pre, ¬ (x.refreshed + 1800 < now)) (he : e.refreshed + 1800 < now)
    (hrange : ∀ x ∈ pre ++ [e], LONG_MIN ≤ x.refreshed + 1800 ∧ x.refreshed + 1800 ≤ LONG_MAX) :
    (pre ++ e :: post).find? (forwarding_due now) = some e := by
  induction pre with
  | nil =>
    have hd := (forwarding_due_iff now e (hrange e (by simp))).mpr he
    simp [List.find?_cons, hd]
  | cons x xs ih =>
    have hx : forwarding_due now x = false := by
      have := forwarding_due_iff now x (hrange x (by simp))
      cases hd : forwarding_due now x with
      | false => rfl
      | true => exact absurd (this.mp hd) (hpre x (by simp))
    simp only [List.cons_append, List.find?_cons, hx]
    exact ih (fun y hy => hpre y (by simp [hy])) (fun y hy => hrange y (by
      rcases List.mem_append.mp hy with h | h
      · simp [h]
      · simp at h; simp [h]))

theorem natpmp_block_handler_calls (b : fwd_build) (t : tick_t) (natpmp : Bool)
    (f : forwardings_t) (item : forwarding_t) (lifespan : Int) :
    (natpmp_block b t natpmp f item lifespan).2.2.2.filter is_handler_call = [] ∨
      (natpmp_block b t natpmp f item lifespan).2.2.2.filter is_handler_call =
        [fwd_call.natpmp_handler item.port lifespan t.now] := by
  unfold natpmp_block
  split_ifs
  · cases t.natpmp_rc <;> simp [is_handler_call]
  · simp [is_handler_call]
  · simp

theorem upnp_block_handler_calls (b : fwd_build) (t : tick_t) (upnp : Bool)
    (f : forwardings_t) (item : forwarding_t) (lifespan : Int) :
    (upnp_block b t upnp f item lifespan).2.2.filter is_handler_call = [] ∨
      (upnp_block b t upnp f item lifespan).2.2.filter is_handler_call =
        [fwd_call.upnp_handler item.port lifespan t.now] := by
  unfold upnp_block
  split_ifs
  · cases t.upnp_rc <;> simp [is_handler_call]
  · simp [is_handler_call]
  · simp

/-- C14, counterexample: with both back-ends attached and one entry that is
due, a tick in which NAT-PMP returns `PF_ERROR` calls `natpmp_handler` and then
`upnp_handler` for the same port, two handler calls; so does a tick in which
NAT-PMP returns `PF_RETRY`, which does not end the tick. -/
theorem handle_calls_both_handlers :
    (forwardings_handle ⟨true, true⟩ { tick_retry with natpmp_rc := pf_t.PF_ERROR } fwd_demo).2 =
        [fwd_call.natpmp_handler 5000 1920 10000, fwd_call.natpmp_uninit,
          fwd_call.upnp_handler 5000 1920 10000] ∧
      ((forwardings_handle ⟨true, true⟩ { tick_retry with natpmp_rc := pf_t.PF_ERROR }
        fwd_demo).2.filter is_handler_call).length = 2 ∧
      (forwardings_handle ⟨true, true⟩ tick_retry fwd_demo).2 =
        [fwd_call.natpmp_handler 5000 1920 10000, fwd_call.upnp_handler 5000 1920 10000] := by
  refine ⟨?_, ?_, ?_⟩ <;> decide

/-- C14, amended: in one invocation of `forwardings_handle` the handler calls
are at most one call of `natpmp_handler` followed by at most one call of
`upnp_handler`, both with the port and lifespan of the selected entry and the
clock of the tick, and none without a selected entry; after `PF_DONE` from
NAT-PMP the only handler call is that of `natpmp_handler`. -/
theorem handle_handler_calls (b : fwd_build) (t : tick_t) (s : fwd_state) :
    (∀ start retry, scan_start t.now s.forwardings = some (start, retry) →
      ∀ e, start.find? (forwarding_due t.now) = some e →
        ((forwardings_handle b t s).2.filter is_handler_call).Sublist
            [fwd_call.natpmp_handler e.port (forwarding_lifespan t.now e) t.now,
              fwd_call.upnp_handler e.port (forwarding_lifespan t.now e) t.now] ∧
          (b.FWD_NATPMP = true → s.natpmp = true → t.natpmp_rc = pf_t.PF_DONE →
            (forwardings_handle b t s).2 =
              [fwd_call.natpmp_handler e.port (forwarding_lifespan t.now e) t.now])) ∧
    ((∀ start retry, scan_start t.now s.forwardings = some (start, retry) →
        start.find? (forwarding_due t.now) = none) →
      (forwardings_handle b t s).2 = []) := by
  constructor
  · intro start retry hs e hsel
    rw [forwardings_handle_selected b t s start retry e hs hsel]
    constructor
    · split_ifs with hn
      · simp only
        rcases natpmp_block_handler_calls b t s.natpmp
          { s.forwardings with retry := retry, cur := some e.ptr } e
          (forwarding_lifespan t.now e) with h | h
        · rw [h]; exact List.nil_sublist _
        · rw [h]; exact (List.Sublist.refl _).cons₂ _ |>.trans (by simp)
      · simp only [List.filter_append]
        rcases natpmp_block_handler_calls b t s.natpmp
          { s.forwardings with retry := retry, cur := some e.ptr } e
          (forwarding_lifespan t.now e) with h | h <;>
        rcases upnp_block_handler_calls b t s.upnp
          (natpmp_block b t s.natpmp { s.forwardings with retry := retry, cur := some e.ptr } e
            (forwarding_lifespan t.now e)).2.1 e (forwarding_lifespan t.now e) with h2 | h2 <;>
        rw [h, h2] <;> simp
    · intro hb hnp hrc
      simp [natpmp_block, hb, hnp, hrc]
  · intro hnone
    cases hs : scan_start t.now s.forwardings with
    | none =>
      unfold forwardings_handle
      rw [hs]
    | some sr =>
      rw [forwardings_handle_idle b t s sr.1 sr.2 hs (hnone sr.1 sr.2 hs)]

/-- The statement above at a tick in which NAT-PMP returns `PF_DONE` for the
entry with port 5000. -/
theorem handle_handler_calls_witness :
    (forwardings_handle ⟨true, true⟩ { tick_retry with natpmp_rc := pf_t.PF_DONE } fwd_demo).2 =
      [fwd_call.natpmp_handler 5000 1920 10000] :=
  ((handle_handler_calls ⟨true, true⟩ { tick_retry with natpmp_rc := pf_t.PF_DONE } fwd_demo).1
    fwd_demo.forwardings.beg 10060 (by decide) ⟨1, 5000, LONG_MAX, 0⟩ (by decide)).2 rfl rfl rfl

/-- C16: in a tick in which the scan selects the entry `e` (the first entry
from the scan start with `refreshed + 1800 < now`), NAT-PMP is attached and
its handler returns `PF_DONE`: the only call is `natpmp_handler` with `e.port`,
the lifespan 0 if `e.lifetime < now` and 1920 otherwise, and `now`; with
lifespan 0 the list loses `e` and `cur` is NULL, otherwise `e.refreshed` becomes
`now` and `cur` refers to `e`; the other entries and both handles are
unchanged. -/
theorem handle_natpmp_done (b : fwd_build) (t : tick_t) (s : fwd_state)
    (pre post : List forwarding_t) (retry : Int) (e : forwarding_t)
    (hb : b.FWD_NATPMP = true) (hn : s.natpmp = true) (hrc : t.natpmp_rc = pf_t.PF_DONE)
    (hs : scan_start t.now s.forwardings = some (pre ++ e :: post, retry))
    (hpre : ∀ x ∈ pre, ¬ (x.refreshed + 1800 < t.now)) (he : e.refreshed + 1800 < t.now)
    (hrange : ∀ x ∈ pre ++ [e], LONG_MIN ≤ x.refreshed + 1800 ∧ x.refreshed + 1800 ≤ LONG_MAX)
    (hnd : (s.forwardings.beg.map (fun x => x.ptr)).Nodup) :
    (forwardings_handle b t s).2 =
        [fwd_call.natpmp_handler e.port (if e.lifetime < t.now then 0 else 1920) t.now] ∧
      (forwardings_handle b t s).1.forwardings.beg =
        (if e.lifetime < t.now then s.forwardings.beg.filter (fun x => x.ptr != e.ptr)
          else s.forwardings.beg.map
            (fun x => if x.ptr = e.ptr then { x with refreshed := t.now } else x)) ∧
      (forwardings_handle b t s).1.forwardings.cur =
        (if e.lifetime < t.now then none else some e.ptr) ∧
      (forwardings_handle b t s).1.forwardings.retry = retry ∧
      (forwardings_handle b t s).1.natpmp = s.natpmp ∧
      (forwardings_handle b t s).1.upnp = s.upnp := by
  have hsel := find_due t.now pre post e hpre he hrange
  have hl : forwarding_lifespan t.now e = if e.lifetime < t.now then 0 else 1920 := by
    unfold forwarding_lifespan
    split_ifs <;> norm_num
  have hres : forwardings_handle b t s =
      (⟨forwarding_done { s.forwardings with retry := retry, cur := some e.ptr } e
          (forwarding_lifespan t.now e) t.now, s.natpmp, s.upnp⟩,
        [fwd_call.natpmp_handler e.port (forwarding_lifespan t.now e) t.now]) := by
    rw [forwardings_handle_selected b t s _ retry e hs hsel]
    simp [natpmp_block, hb, hn, hrc]
  rw [hres, hl]
  unfold forwarding_done
  by_cases hlt : e.lifetime < t.now
  · rw [if_pos hlt, if_pos hlt, if_pos hlt, if_pos rfl]
    refine ⟨rfl, ?_, ?_, rfl, rfl, rfl⟩
    · exact forwardings_remove_loop_filter s.forwardings.beg e.ptr hnd
    · simp [forwardings_remove]
  · have h1920 : ¬ ((1920 : Int) = 0) := by norm_num
    rw [if_neg hlt, if_neg hlt, if_neg hlt, if_neg h1920]
    exact ⟨rfl, rfl, rfl, rfl, rfl, rfl⟩

/-- The statement above at the entry with port 5000, never refreshed, at
10000 s. -/
theorem handle_natpmp_done_witness :
    (forwardings_handle ⟨true, true⟩ { tick_retry with natpmp_rc := pf_t.PF_DONE } fwd_demo).2 =
        [fwd_call.natpmp_handler 5000 1920 10000] ∧
      (forwardings_handle ⟨true, true⟩ { tick_retry with natpmp_rc := pf_t.PF_DONE }
        fwd_demo).1.forwardings.beg = [⟨1, 5000, LONG_MAX, 10000⟩] := by
  have h := handle_natpmp_done ⟨true, true⟩ { tick_retry with natpmp_rc := pf_t.PF_DONE }
    fwd_demo [] [] 10060 ⟨1, 5000, LONG_MAX, 0⟩ rfl rfl rfl (by decide) (by simp) (by decide)
    (by decide) (by decide)
  exact ⟨h.1.trans (by decide), h.2.1.trans (by decide)⟩

/-- The value of `retry` after a tick that does not return at once. -/
theorem forwardings_handle_retry (b : fwd_build) (t : tick_t) (s : fwd_state)
    (start : List forwarding_t) (retry : Int)
    (hs : scan_start t.now s.forwardings = some (start, retry)) :
    (forwardings_handle b t s).1.forwardings.retry = retry := by
  have hdone : ∀ (f : forwardings_t) (item : forwarding_t) (l n : Int),
      (forwarding_done f item l n).retry = f.retry := by
    intro f item l n
    unfold forwarding_done
    split_ifs <;> rfl
  cases hsel : start.find? (forwarding_due t.now) with
  | none => rw [forwardings_handle_idle b t s start retry hs hsel]
  | some e =>
    rw [forwardings_handle_selected b t s start retry e hs hsel]
    split_ifs with hn
    · simp only
      rcases natpmp_block_forwardings b t s.natpmp
        { s.forwardings with retry := retry, cur := some e.ptr } e
        (forwarding_lifespan t.now e) with h | h
      · rw [h]
      · rw [h, hdone]
    · simp only
      rw [natpmp_block_continue b t s.natpmp _ e _ (by simpa using hn)]
      rcases upnp_block_forwardings b t s.upnp
        { s.forwardings with retry := retry, cur := some e.ptr } e
        (forwarding_lifespan t.now e) with h | h
      · rw [h]
      · rw [h, hdone]

/-- C20: with `cur` NULL and `retry > now` a tick changes nothing and calls no
back-end function; with `cur` NULL and `retry <= now` the scan runs over the
list from its head and `retry` is `now + 60` after the tick; when the scan
finds no entry with `refreshed + 1800 < now`, `cur` is NULL after the tick, the
list and the handles are unchanged and no back-end function is called. -/
theorem handle_rate_limit (b : fwd_build) (t : tick_t) (s : fwd_state) :
    (s.forwardings.cur = none → s.forwardings.retry > t.now →
      forwardings_handle b t s = (s, [])) ∧
    (s.forwardings.cur = none → s.forwardings.retry ≤ t.now →
      LONG_MIN ≤ t.now + 60 → t.now + 60 ≤ LONG_MAX →
      scan_start t.now s.forwardings = some (s.forwardings.beg, t.now + 60) ∧
        (forwardings_handle b t s).1.forwardings.retry = t.now + 60) ∧
    (∀ start retry, scan_start t.now s.forwardings = some (start, retry) →
      (∀ x ∈ start, LONG_MIN ≤ x.refreshed + 1800 ∧ x.refreshed + 1800 ≤ LONG_MAX) →
      (∀ x ∈ start, ¬ (x.refreshed + 1800 < t.now)) →
      forwardings_handle b t s =
        ({ s with forwardings := { s.forwardings with retry := retry, cur := none } }, [])) := by
  refine ⟨?_, ?_, ?_⟩
  · intro hc hr
    unfold forwardings_handle scan_start
    rw [hc]
    simp only [hr, if_true]
  · intro hc hr hlo hhi
    have hs : scan_start t.now s.forwardings = some (s.forwardings.beg, t.now + 60) := by
      unfold scan_start
      rw [hc]
      simp only
      rw [if_neg (by omega)]
      have : t.now + 1 * 60 = t.now + 60 := by norm_num
      rw [this, long_wrap_eq _ hlo hhi]
    exact ⟨hs, forwardings_handle_retry b t s _ _ hs⟩
  · intro start retry hs hrange hnone
    apply forwardings_handle_idle b t s start retry hs
    rw [List.find?_eq_none]
    intro x hx hd
    exact hnone x hx ((forwarding_due_iff t.now x (hrange x hx)).mp hd)

/-- The statement above at the state with port 5000: a tick at 10 s with
`retry` 0 sets `retry` to 70 and finds nothing to do, the tick at 20 s changes
nothing. -/
theorem handle_rate_limit_witness :
    forwardings_handle ⟨true, true⟩ { tick_retry with now := 10 } fwd_demo =
        ({ fwd_demo with forwardings := { fwd_demo.forwardings with retry := 70, cur := none } },
          []) ∧
      forwardings_handle ⟨true, true⟩ { tick_retry with now := 20 }
        (forwardings_handle ⟨true, true⟩ { tick_retry with now := 10 } fwd_demo).1 =
        ((forwardings_handle ⟨true, true⟩ { tick_retry with now := 10 } fwd_demo).1, []) := by
  constructor
  · exact (handle_rate_limit ⟨true, true⟩ { tick_retry with now := 10 } fwd_demo).2.2
      fwd_demo.forwardings.beg 70 (by decide) (by decide) (by decide)
  · exact (handle_rate_limit ⟨true, true⟩ { tick_retry with now := 20 }
      (forwardings_handle ⟨true, true⟩ { tick_retry with now := 10 } fwd_demo).1).1
      (by decide) (by decide)

/-! ## `utils.c`: the loop of `addr_parse` -/

/-- The loop of `addr_parse` returns 0 with the first entry of the list when
that entry is IPv4 or IPv6, for every fuel that allows one iteration. -/
theorem addr_parse_loop_first (fuel : Nat) (addr : IP) (p : addrinfo) (rest : List addrinfo)
    (h : p.ai_family = AF_INET6 ∨ p.ai_family = AF_INET) :
    addr_parse_loop (fuel + 1) addr (p :: rest) = some (0, p.ai_addr) := by
  unfold addr_parse_loop
  rcases h with h | h
  · rw [if_pos h]
  · split_ifs <;> rfl

/-- The loop of `addr_parse` returns -3 on the empty list. -/
theorem addr_parse_loop_nil (fuel : Nat) (addr : IP) :
    addr_parse_loop (fuel + 1) addr [] = some (-3, addr) := by
  unfold addr_parse_loop
  rfl

/-- The loop of `addr_parse` never ends when the first entry of the list is
neither IPv4 nor IPv6: `p` is not advanced, so no number of iterations gives a
result. -/
theorem addr_parse_loop_stuck (addr : IP) (p : addrinfo) (rest : List addrinfo)
    (h6 : p.ai_family ≠ AF_INET6) (h4 : p.ai_family ≠ AF_INET) (fuel : Nat) :
    addr_parse_loop fuel addr (p :: rest) = none := by
  induction fuel with
  | zero => unfold addr_parse_loop; rfl
  | succ n ih =>
    unfold addr_parse_loop
    rw [if_neg h6, if_neg h4]
    exact ih

/-- C22, evaluation: for a resolver answer that lists an endpoint of another
address family before an IPv4 endpoint, `addr_parse` gives no result for any
number of loop iterations: it neither returns 0 with the IPv4 endpoint nor
returns -3. -/
theorem addr_parse_mixed_never_returns (fuel : Nat) (addr : IP) (af : Int) :
    addr_parse resolver_mixed fuel addr (bytes "node.p2p") none af = none := by
  have hr : resolver_mixed (bytes "node.p2p") none af =
      some [⟨1, ⟨1, [], 0⟩⟩, ⟨AF_INET, ⟨AF_INET, [10, 0, 0, 1], 7000⟩⟩] := by
    unfold resolver_mixed
    rw [if_pos rfl]
  unfold addr_parse
  rw [hr]
  exact addr_parse_loop_stuck addr _ _ (by decide) (by decide) fuel

/-! ## `forwardings.c`: ports and refresh times -/

theorem fwd_clock_reachable_reachable (b : fwd_build) (s : fwd_state) (now : Int)
    (h : fwd_clock_reachable b s now) : fwd_reachable b s := by
  induction h with
  | init natpmp upnp now _ => exact fwd_reachable.init natpmp upnp
  | add s now new port lifetime _ hnew ih => exact fwd_reachable.add s new port lifetime ih hnew
  | handle s now t _ _ ih => exact fwd_reachable.handle s t ih
  | wait s now later _ _ ih => exact ih

theorem fwd_clock_reachable_nonneg (b : fwd_build) (s : fwd_state) (now : Int)
    (h : fwd_clock_reachable b s now) : 0 ≤ now := by
  induction h with
  | init natpmp upnp now h0 => exact h0
  | add s now new port lifetime _ _ ih => exact ih
  | handle s now t _ hle ih => exact le_trans ih hle
  | wait s now later _ hle ih => exact le_trans ih hle

/-- The update of the lifetime in `forwardings_add` leaves the port and the
refresh time of every node as they are. -/
theorem forwardings_add_loop_fields (es l : List forwarding_t) (port lifetime : Int)
    (h : forwardings_add_loop es port lifetime = some l) :
    ∀ e ∈ l, ∃ x ∈ es, x.port = e.port ∧ x.refreshed = e.refreshed := by
  induction es generalizing l with
  | nil => simp [forwardings_add_loop] at h
  | cons a es ih =>
    unfold forwardings_add_loop at h
    by_cases hp : a.port = port
    · rw [if_pos hp] at h
      cases h
      intro e he
      rcases List.mem_cons.mp he with he | he
      · exact ⟨a, List.mem_cons_self _ _, by rw [he], by rw [he]⟩
      · exact ⟨e, List.mem_cons_of_mem _ he, rfl, rfl⟩
    · rw [if_neg hp] at h
      cases hl : forwardings_add_loop es port lifetime with
      | none => rw [hl] at h; simp at h
      | some l1 =>
        rw [hl] at h
        simp only [Option.map_some', Option.some.injEq] at h
        subst h
        intro e he
        rcases List.mem_cons.mp he with he | he
        · exact ⟨a, List.mem_cons_self _ _, by rw [he], by rw [he]⟩
        · obtain ⟨x, hx, h1, h2⟩ := ih l1 hl e he
          exact ⟨x, List.mem_cons_of_mem _ hx, h1, h2⟩

/-- `forwardings_add` keeps every port above 1 and every refresh time at or
below a non-negative clock. -/
theorem forwardings_add_bounds (new : Nat) (f : forwardings_t) (port : Nat) (lifetime now : Int)
    (h0 : 0 ≤ now) (hb : ∀ e ∈ f.beg, 1 < e.port ∧ e.refreshed ≤ now) :
    ∀ e ∈ (forwardings_add new f port lifetime).beg, 1 < e.port ∧ e.refreshed ≤ now := by
  unfold forwardings_add
  split_ifs with h1
  · exact hb
  · cases hl : forwardings_add_loop f.beg port lifetime with
    | some l =>
      intro e he
      obtain ⟨x, hx, hp, hr⟩ := forwardings_add_loop_fields f.beg l port lifetime hl e he
      rw [← hp, ← hr]
      exact hb x hx
    | none =>
      intro e he
      rcases List.mem_cons.mp he with he | he
      · subst he
        constructor
        · show (1 : Int) < (port : Int)
          omega
        · exact h0
      · exact hb e he

/-- A tick of `forwardings_handle` keeps every port above 1 and leaves every
refresh time at or below the clock of the tick, when the clock did not go
back. -/
theorem forwardings_handle_bounds (b : fwd_build) (t : tick_t) (s : fwd_state) (now : Int)
    (hle : now ≤ t.now) (hb : ∀ e ∈ s.forwardings.beg, 1 < e.port ∧ e.refreshed ≤ now) :
    ∀ e ∈ (forwardings_handle b t s).1.forwardings.beg, 1 < e.port ∧ e.refreshed ≤ t.now := by
  have hb1 : ∀ e ∈ s.forwardings.beg, 1 < e.port ∧ e.refreshed ≤ t.now :=
    fun e he => ⟨(hb e he).1, le_trans (hb e he).2 hle⟩
  rcases forwardings_handle_cases b t s with h | ⟨retry, h⟩ | ⟨retry, item, -, -, h | h⟩
  · rw [h]; exact hb1
  · rw [h]; exact hb1
  · rw [h]; exact hb1
  · rw [h]
    unfold forwarding_done
    split_ifs
    · intro e he
      exact hb1 e ((forwardings_remove_loop_sublist _ _).subset he)
    · intro e he
      simp only [set_refreshed] at he
      obtain ⟨x, hx, hxe⟩ := List.mem_map.mp he
      by_cases hp : x.ptr = item.ptr
      · rw [if_pos hp] at hxe
        subst hxe
        exact ⟨(hb1 x hx).1, le_refl _⟩
      · rw [if_neg hp] at hxe
        subst hxe
        exact hb1 x hx

/-- C23: in every state reachable from the empty list through
`forwardings_add` and ticks of `forwardings_handle`, with a clock that starts
non-negative and never goes back, every node has a port above 1 and a refresh
time at or below the clock, and no two nodes have the same port;
`forwardings_add` with port 0 or 1 changes nothing. -/
theorem forwardings_ports_and_refreshed (b : fwd_build) (s : fwd_state) (now : Int)
    (hr : fwd_clock_reachable b s now) :
    (∀ e ∈ s.forwardings.beg, 1 < e.port ∧ e.refreshed ≤ now) ∧
      (s.forwardings.beg.map (fun e => e.port)).Nodup ∧
      ∀ (new : Nat) (f : forwardings_t) (port : Nat) (lifetime : Int), port ≤ 1 →
        forwardings_add new f port lifetime = f := by
  refine ⟨?_, (fwd_reachable_inv b s (fwd_clock_reachable_reachable b s now hr)).2.1, ?_⟩
  · induction hr with
    | init natpmp upnp now _ =>
      intro e he
      simp [forwardings_init] at he
    | add s now new port lifetime h _ ih =>
      exact forwardings_add_bounds new s.forwardings port lifetime now
        (fwd_clock_reachable_nonneg b s now h) ih
    | handle s now t _ hle ih => exact forwardings_handle_bounds b t s now hle ih
    | wait s now later _ hle ih => exact fun e he => ⟨(ih e he).1, le_trans (ih e he).2 hle⟩
  · intro new f port lifetime hp
    unfold forwardings_add
    rw [if_pos hp]

/-- The statement above at the state reached by adding port 5000 at 0 s and a
tick at 10000 s in which NAT-PMP is done: the node has port 5000 and the
refresh time 10000, and adding port 1 leaves the list as it is. -/
theorem forwardings_ports_and_refreshed_witness :
    (forwardings_handle ⟨true, true⟩ { tick_retry with natpmp_rc := pf_t.PF_DONE }
        fwd_demo).1.forwardings.beg = [⟨1, 5000, LONG_MAX, 10000⟩] ∧
      (∀ e ∈ (forwardings_handle ⟨true, true⟩ { tick_retry with natpmp_rc := pf_t.PF_DONE }
          fwd_demo).1.forwardings.beg, 1 < e.port ∧ e.refreshed ≤ 10000) ∧
      forwardings_add 2
          (forwardings_handle ⟨true, true⟩ { tick_retry with natpmp_rc := pf_t.PF_DONE }
            fwd_demo).1.forwardings 1 77 =
        (forwardings_handle ⟨true, true⟩ { tick_retry with natpmp_rc := pf_t.PF_DONE }
          fwd_demo).1.forwardings := by
  have hr : fwd_clock_reachable ⟨true, true⟩
      (forwardings_handle ⟨true, true⟩ { tick_retry with natpmp_rc := pf_t.PF_DONE } fwd_demo).1
      10000 :=
    fwd_clock_reachable.handle fwd_demo 0 { tick_retry with natpmp_rc := pf_t.PF_DONE }
      (fwd_clock_reachable.add ⟨forwardings_init, true, true⟩ 0 1 5000 LONG_MAX
        (fwd_clock_reachable.init true true 0 (le_refl 0)) (by simp [forwardings_init]))
      (by decide)
  have h := forwardings_ports_and_refreshed ⟨true, true⟩ _ 10000 hr
  exact ⟨by decide, h.1, h.2.2 2 _ 1 77 (le_refl 1)⟩

/-! ## `ext-cmd.c`: the target of `announce` -/

theorem sscanf_host_port_nil (port0 : Int) : sscanf_host_port [] port0 = (-1, [], port0) := by
  unfold sscanf_host_port
  rfl

theorem sscanf_host_port_colon (rest : List Nat) (port0 : Int) :
    sscanf_host_port (58 :: rest) port0 = (0, [], port0) := by
  unfold sscanf_host_port
  simp

/-- The first directive `%255[^:]` on a target that starts with a host of 1 to
255 bytes other than `:` and then ends or goes on with `:`. -/
theorem sscanf_host_port_host (host tail : List Nat) (port0 : Int) (hne : host ≠ [])
    (hlen : host.length ≤ 255) (hcol : 58 ∉ host) (htail : tail = [] ∨ ∃ rest, tail = 58 :: rest) :
    sscanf_host_port (host ++ tail) port0 =
      match tail with
      | 58 :: rest =>
        match scan_long rest with
        | none => (1, host, port0)
        | some (v, rest2) =>
          if (rest2.dropWhile isspace).isEmpty then (2, host, int_wrap v)
          else (3, host, int_wrap v)
      | _ => (1, host, port0) := by
  have hall : ∀ a ∈ host, (fun b : Nat => b != 58) a = true := by
    intro a ha
    have : a ≠ 58 := fun h => hcol (h ▸ ha)
    simpa using this
  have htw : (host ++ tail).takeWhile (fun b => b != 58) = host := by
    rw [List.takeWhile_append_of_pos hall]
    rcases htail with h | ⟨rest, h⟩
    · rw [h]; simp
    · rw [h, List.takeWhile_cons_of_neg (by simp)]; simp
  have hhost : ((host ++ tail).takeWhile (fun b => b != 58)).take 255 = host := by
    rw [htw, List.take_of_length_le hlen]
  have he : (host ++ tail).isEmpty = false := by
    cases host with
    | nil => exact absurd rfl hne
    | cons a as => rfl
  have he2 : host.isEmpty = false := by
    cases host with
    | nil => exact absurd rfl hne
    | cons a as => rfl
  unfold sscanf_host_port
  simp only [hhost, he, he2, Bool.false_eq_true, if_false, List.drop_left]
  rcases htail with h | ⟨rest, h⟩ <;> subst h <;> rfl

theorem scan_long_nil : scan_long [] = none := by
  unfold scan_long
  rfl

/-- The directive `%d` on a run of digits that ends the text or is followed by
a byte that is not a digit. -/
theorem scan_long_digits (ds trail : List Nat) (hne : ds ≠ [])
    (hdig : ∀ d ∈ ds, isdigit d = true) (htr : ∀ c ∈ trail.head?, isdigit c = false) :
    scan_long (ds ++ trail) = some (long_sat (digits_val ds), trail) := by
  obtain ⟨d, ds1, rfl⟩ := List.exists_cons_of_ne_nil hne
  have hd : isdigit d = true := hdig d (List.mem_cons_self _ _)
  have hd2 : 48 ≤ d ∧ d ≤ 57 := by simpa [isdigit] using hd
  have hsp : isspace d = false := by
    simp only [isspace, Bool.or_eq_false_iff, beq_eq_false_iff_ne, Bool.and_eq_false_iff,
      decide_eq_false_iff_not]
    omega
  have h1 : (d :: ds1 ++ trail).dropWhile isspace = d :: ds1 ++ trail := by
    rw [List.cons_append, List.dropWhile_cons_of_neg (by simp [hsp])]
  have h45 : ((d :: ds1 ++ trail).head? == some 45) = false := by
    simp only [List.cons_append, List.head?_cons, beq_eq_false_iff_ne, ne_eq, Option.some.injEq]
    omega
  have h43 : ((d :: ds1 ++ trail).head? == some 43) = false := by
    simp only [List.cons_append, List.head?_cons, beq_eq_false_iff_ne, ne_eq, Option.some.injEq]
    omega
  have htk : (trail.takeWhile isdigit) = [] := by
    cases trail with
    | nil => rfl
    | cons c cs =>
      have := htr c (by simp)
      rw [List.takeWhile_cons_of_neg (by simp [this])]
  have hdr : (trail.dropWhile isdigit) = trail := by
    cases trail with
    | nil => rfl
    | cons c cs =>
      have := htr c (by simp)
      rw [List.dropWhile_cons_of_neg (by simp [this])]
  have h2 : (d :: ds1 ++ trail).takeWhile isdigit = d :: ds1 := by
    rw [List.takeWhile_append_of_pos hdig, htk, List.append_nil]
  have h3 : (d :: ds1 ++ trail).dropWhile isdigit = trail := by
    rw [List.dropWhile_append_of_pos hdig, hdr]
  unfold scan_long
  simp only [h1, h45, h43, Bool.or_self, Bool.false_eq_true, if_false, h2, h3, List.isEmpty_cons]

theorem cmd_exec_announce_args (env : Env) (fuel : Nat) (r : reply_t) (target : List Nat)
    (margs : List (List Nat)) (hm : margs.length ≤ 1) :
    cmd_exec env fuel r (bytes "announce" :: target :: margs) =
      some (cmd_exec_announce env r target margs.head?) := by
  cases margs with
  | nil => exact cmd_exec_announce_two env fuel r target
  | cons m ms =>
    cases ms with
    | nil => exact cmd_exec_announce_three env fuel r target m
    | cons m2 ms2 =>
      simp only [List.length_cons] at hm
      omega

/-- A target that `sscanf` does not parse to one or two fields is refused
without a call. -/
theorem cmd_exec_announce_refused (env : Env) (r : reply_t) (target : List Nat)
    (arg : Option (List Nat)) (h1 : (sscanf_host_port target 0).1 ≠ 1)
    (h2 : (sscanf_host_port target 0).1 ≠ 2) :
    cmd_exec_announce env r target arg =
      ⟨1, r_printf r (bytes "Invalid port or query too long.\n"), []⟩ := by
  unfold cmd_exec_announce
  simp only
  rw [if_neg (by rintro (h | h); exact h1 h; exact h2 h)]

/-- A target that `sscanf` parses to one or two fields reaches `kad_announce`
with the host and the port read. -/
theorem cmd_exec_announce_accepted (env : Env) (r : reply_t) (target : List Nat)
    (arg : Option (List Nat)) (rc : Int) (host : List Nat) (port : Int)
    (hs : sscanf_host_port target 0 = (rc, host, port)) (hrc : rc = 1 ∨ rc = 2) :
    (cmd_exec_announce env r target arg).calls.head? =
      some (Call.kad_announce host port (announce_minutes_lifetime env arg).2) := by
  rw [cmd_exec_announce_calls, hs]
  simp only
  rw [if_pos hrc]
  rfl

/-- For a host of 1 to 255 bytes other than `:`, the targets `<host>` and
`<host>:` reach `kad_announce` with the host and port 0, and the target
`<host>:<digits>` reaches it with the host and the port read; a target that is
empty or starts with `:`, and a target `<host>:<digits><text>` with a text of
1 to 3 bytes that starts with a byte that is neither a digit nor white space,
make `cmd_exec` return 1 with the reply "Invalid port or query too long." and
without a call of `kad_announce`. -/
theorem announce_target_forms (env : Env) (fuel : Nat) (r : reply_t)
    (host ds cs t : List Nat) (c : Nat) (margs : List (List Nat))
    (hne : host ≠ []) (hlen : host.length ≤ 255) (hcol : 58 ∉ host)
    (hds : ds ≠ []) (hdig : ∀ d ∈ ds, isdigit d = true)
    (hc1 : isdigit c = false) (hc2 : isspace c = false) (_hcs : cs.length ≤ 2)
    (hm : margs.length ≤ 1) :
    (∀ target ∈ [host, host ++ [58]],
      ∃ e, cmd_exec env fuel r (bytes "announce" :: target :: margs) = some e ∧
        e.calls.head? =
          some (Call.kad_announce host 0 (announce_minutes_lifetime env margs.head?).2)) ∧
    (∃ e, cmd_exec env fuel r (bytes "announce" :: (host ++ 58 :: ds) :: margs) = some e ∧
      e.calls.head? =
        some (Call.kad_announce host (int_wrap (long_sat (digits_val ds)))
          (announce_minutes_lifetime env margs.head?).2)) ∧
    ∀ target ∈ [[], 58 :: t, host ++ 58 :: (ds ++ c :: cs)],
      cmd_exec env fuel r (bytes "announce" :: target :: margs) =
        some ⟨1, r_printf r (bytes "Invalid port or query too long.\n"), []⟩ := by
  have hA : sscanf_host_port host 0 = (1, host, 0) := by
    have h := sscanf_host_port_host host [] 0 hne hlen hcol (Or.inl rfl)
    rw [List.append_nil] at h
    exact h
  have hB : sscanf_host_port (host ++ [58]) 0 = (1, host, 0) := by
    have h := sscanf_host_port_host host [58] 0 hne hlen hcol (Or.inr ⟨[], rfl⟩)
    simp only [scan_long_nil] at h
    exact h
  have hC : sscanf_host_port (host ++ 58 :: ds) 0 =
      (2, host, int_wrap (long_sat (digits_val ds))) := by
    have h := sscanf_host_port_host host (58 :: ds) 0 hne hlen hcol (Or.inr ⟨ds, rfl⟩)
    have hs := scan_long_digits ds [] hds hdig (by simp)
    rw [List.append_nil] at hs
    simp only [hs] at h
    exact h
  have hD : sscanf_host_port (host ++ 58 :: (ds ++ c :: cs)) 0 =
      (3, host, int_wrap (long_sat (digits_val ds))) := by
    have h := sscanf_host_port_host host (58 :: (ds ++ c :: cs)) 0 hne hlen hcol
      (Or.inr ⟨ds ++ c :: cs, rfl⟩)
    have hs := scan_long_digits ds (c :: cs) hds hdig (by simp [hc1])
    simp only [hs] at h
    rw [List.dropWhile_cons_of_neg (by simp [hc2])] at h
    exact h
  refine ⟨?_, ?_, ?_⟩
  · intro target ht
    rw [cmd_exec_announce_args env fuel r target margs hm]
    refine ⟨_, rfl, ?_⟩
    simp only [List.mem_cons, List.mem_singleton, List.not_mem_nil, or_false] at ht
    rcases ht with h | h
    · rw [h]
      exact cmd_exec_announce_accepted env r _ _ 1 host 0 hA (Or.inl rfl)
    · rw [h]
      exact cmd_exec_announce_accepted env r _ _ 1 host 0 hB (Or.inl rfl)
  · rw [cmd_exec_announce_args env fuel r _ margs hm]
    exact ⟨_, rfl, cmd_exec_announce_accepted env r _ _ 2 host _ hC (Or.inr rfl)⟩
  · intro target ht
    rw [cmd_exec_announce_args env fuel r target margs hm]
    simp only [List.mem_cons, List.mem_singleton, List.not_mem_nil, or_false] at ht
    rcases ht with h | h | h
    · rw [h, cmd_exec_announce_refused env r _ _ (by rw [sscanf_host_port_nil]; decide)
        (by rw [sscanf_host_port_nil]; decide)]
    · rw [h, cmd_exec_announce_refused env r _ _ (by rw [sscanf_host_port_colon]; decide)
        (by rw [sscanf_host_port_colon]; decide)]
    · rw [h, cmd_exec_announce_refused env r _ _ (by rw [hD]; norm_num) (by rw [hD]; norm_num)]

/-- A port that is not a number is let through with the return value 1 of
`sscanf`, as a target without a port is: for every host of 1 to 255 bytes
other than `:` and every text that starts with a byte that is not a digit, a
sign or white space, the target `<host>:<text>` reaches `kad_announce` with
the host and port 0. -/
theorem announce_non_numeric_port (env : Env) (fuel : Nat) (r : reply_t)
    (host cs : List Nat) (c : Nat) (margs : List (List Nat))
    (hne : host ≠ []) (hlen : host.length ≤ 255) (hcol : 58 ∉ host)
    (hc1 : isdigit c = false) (hc2 : isspace c = false) (hc3 : c ≠ 45) (hc4 : c ≠ 43)
    (hm : margs.length ≤ 1) :
    ∃ e, cmd_exec env fuel r (bytes "announce" :: (host ++ 58 :: c :: cs) :: margs) = some e ∧
      e.calls.head? =
        some (Call.kad_announce host 0 (announce_minutes_lifetime env margs.head?).2) := by
  have hs : scan_long (c :: cs) = none := by
    unfold scan_long
    have h1 : (c :: cs).dropWhile isspace = c :: cs :=
      List.dropWhile_cons_of_neg (by simp [hc2])
    have h45 : ((c :: cs).head? == some 45) = false := by simpa using hc3
    have h43 : ((c :: cs).head? == some 43) = false := by simpa using hc4
    have h2 : (c :: cs).takeWhile isdigit = [] :=
      List.takeWhile_cons_of_neg (by simp [hc1])
    simp only [h1, h45, h43, Bool.or_self, Bool.false_eq_true, if_false, h2, List.isEmpty_nil,
      if_true]
  have hE : sscanf_host_port (host ++ 58 :: c :: cs) 0 = (1, host, 0) := by
    have h := sscanf_host_port_host host (58 :: c :: cs) 0 hne hlen hcol (Or.inr ⟨c :: cs, rfl⟩)
    simp only [hs] at h
    exact h
  rw [cmd_exec_announce_args env fuel r _ margs hm]
  exact ⟨_, rfl, cmd_exec_announce_accepted env r _ _ 1 host 0 hE (Or.inl rfl)⟩

/-- C21, evaluated on the code.  (1) The target `foo.p2p:abc`, with a port that
is not a number, is accepted: `kad_announce` is called with port 0 and the
reply is "Start single announcement now.".  (2) A host of 300 bytes is
accepted: `kad_announce` is called with its first 255 bytes.  (3) The target
`foo.p2p:` passes in the same way.  (4) The target `foo.p2p:12ab`, with text
behind a number, is refused with "Invalid port or query too long." and
without a call. -/
theorem announce_invalid_port_accepted :
    (cmd_exec env_demo 0 reply_zero [bytes "announce", bytes "foo.p2p:abc"]).map
        (fun e => (e.rc, e.calls, reply_body e.r)) =
      some (1, [Call.kad_announce (bytes "foo.p2p") 0 0],
        bytes "Start single announcement now.\n") ∧
    (cmd_exec env_demo 0 reply_zero [bytes "announce", List.replicate 300 97]).map
        (fun e => (e.rc, e.calls, reply_body e.r)) =
      some (1, [Call.kad_announce (List.replicate 255 97) 0 0],
        bytes "Start single announcement now.\n") ∧
    (cmd_exec env_demo 0 reply_zero [bytes "announce", bytes "foo.p2p:"]).map
        (fun e => (e.rc, e.calls, reply_body e.r)) =
      some (1, [Call.kad_announce (bytes "foo.p2p") 0 0],
        bytes "Start single announcement now.\n") ∧
    (cmd_exec env_demo 0 reply_zero [bytes "announce", bytes "foo.p2p:12ab"]).map
        (fun e => (e.rc, e.calls, reply_body e.r)) =
      some (1, [], bytes "Invalid port or query too long.\n") := by
  refine ⟨?_, ?_, ?_, ?_⟩ <;> decide!

end KadNode
